import Mathlib

/-!
# Pawker: hand evaluation and hand comparison

A shallow embedding of the core of `src/script.js`: `Card.getNumericValue`,
`Game.evaluate` and `Game.compareHands`, followed by theorems about them.

JavaScript values are modelled as follows.

* A number is an `Int`.  `NaN` is modelled by `none` where it can arise
  (`parseInt`); the arithmetic used by the program (`b - a`, `a[i-1] + 1`,
  `===`, `<`, `>`) is exact on integers below `2 ^ 53`.
* `undefined` inside a tie-break key (the result of an unsuccessful `find`, or
  of reading past the end of an array) is `none : Option Int`.
* An array is a `List`; the three-element array returned by `evaluate` is the
  structure `Evaluation`, the two-element array returned by `compareHands` is a
  pair of strings.
-/

namespace Pawker

/-! ## Cards -/

/-- A card as built by `new Card(suit, value)`: both fields are strings. -/
structure Card where
  suit : String
  value : String
  deriving DecidableEq, Repr

/-- The array `this.suits` of `Deck` (line 22). -/
def Deck.suits : List String := ["♠", "♥", "♦", "♣"]

/-- The array `this.values` of `Deck` (line 23). -/
def Deck.values : List String :=
  ["2", "3", "4", "5", "6", "7", "8", "9", "10", "J", "Q", "K", "A"]

/-- `Deck.create` (lines 28-35): the array `this.cards` filled by the two nested loops,
one card for every suit and every value. -/
def Deck.create : List Card :=
  Deck.suits.flatMap (fun s => Deck.values.map (fun v => Card.mk s v))

/-! ## The builtin parseInt -/

/-- White space and line terminators skipped at the start of the argument of the
builtin, by code point. -/
def isStrWhiteSpaceChar (c : Char) : Bool :=
  decide (c.toNat ∈ [0x9, 0xA, 0xB, 0xC, 0xD, 0x20, 0xA0, 0x1680, 0x2028, 0x2029,
    0x202F, 0x205F, 0x3000, 0xFEFF]) || (decide (0x2000 ≤ c.toNat) && decide (c.toNat ≤ 0x200A))

/-- Value of a character read as a digit (`0`-`9`, then letters for ten and up). -/
def digitValue (c : Char) : Option Nat :=
  if 48 ≤ c.toNat ∧ c.toNat ≤ 57 then some (c.toNat - 48)
  else if 97 ≤ c.toNat ∧ c.toNat ≤ 122 then some (c.toNat - 87)
  else if 65 ≤ c.toNat ∧ c.toNat ≤ 90 then some (c.toNat - 55)
  else none

/-- The longest prefix of characters that are digits in the given radix, as digit
values. -/
def radixDigits (radix : Nat) : List Char → List Nat
  | [] => []
  | c :: cs =>
    match digitValue c with
    | some d => if d < radix then d :: radixDigits radix cs else []
    | none => []

/-- The number written by a list of digits, most significant first. -/
def digitsValue (radix : Nat) (ds : List Nat) : Nat :=
  ds.foldl (fun acc d => acc * radix + d) 0

/-- Drop leading white space. -/
def trimStart : List Char → List Char
  | [] => []
  | c :: cs => if isStrWhiteSpaceChar c then trimStart cs else c :: cs

/-- The builtin `parseInt(string)` called with one argument: skip leading white
space, read an optional sign, choose radix 16 after a `0x`/`0X` prefix and radix
10 otherwise, and read the longest prefix of digits.  `none` is `NaN` (no
digit could be read).  The value is the exact integer: the rounding the builtin
applies to integers that do not fit a double is outside the model. -/
def parseInt (s : String) : Option Int :=
  let t := trimStart s.data
  let neg : Bool := match t with
    | '-' :: _ => true
    | _ => false
  let t1 := match t with
    | '-' :: r => r
    | '+' :: r => r
    | r => r
  let radix : Nat := match t1 with
    | '0' :: 'x' :: _ => 16
    | '0' :: 'X' :: _ => 16
    | _ => 10
  let t2 := match t1 with
    | '0' :: 'x' :: r => r
    | '0' :: 'X' :: r => r
    | r => r
  match radixDigits radix t2 with
  | [] => none
  | d :: ds =>
    let n : Int := (digitsValue radix (d :: ds) : Nat)
    some (if neg then -n else n)

/-- `Card.getNumericValue` (lines 7-13). `none` is `NaN`. -/
def Card.getNumericValue (c : Card) : Option Int :=
  if c.value = "A" then some 14
  else if c.value = "K" then some 13
  else if c.value = "Q" then some 12
  else if c.value = "J" then some 11
  else parseInt c.value

/-! ## Evaluation of a hand -/

/-- The array `[category, key, name]` returned by `evaluate`.  An entry of the
key is `none` when it is `undefined`. -/
structure Evaluation where
  category : Nat
  key : List (Option Int)
  name : String
  deriving DecidableEq, Repr

/-- `xs.sort((a,b)=>b-a)` on integers: the descending rearrangement. -/
def sortDesc (xs : List Int) : List Int :=
  xs.insertionSort (fun a b => b ≤ a)

/-- `xs.sort((a,b)=>a-b)` on integers: the ascending rearrangement. -/
def sortAsc (xs : List Int) : List Int :=
  xs.insertionSort (fun a b => a ≤ b)

/-- `xs.sort((a,b)=>b-a)` on the occurrence counts. -/
def sortCountsDesc (xs : List Nat) : List Nat :=
  xs.insertionSort (fun a b => b ≤ a)

/-- The object `counts` as a list of its properties `(key, value)`. -/
abbrev Counts := List (Int × Nat)

/-- Property read `counts[v]`: `none` is `undefined`. -/
def Counts.get (counts : Counts) (v : Int) : Option Nat :=
  match counts with
  | [] => none
  | (k, n) :: rest => if k = v then some n else Counts.get rest v

/-- One step of the `forEach` of line 86: `counts[v] = (counts[v]||0)+1`. -/
def Counts.bump (counts : Counts) (v : Int) : Counts :=
  match counts with
  | [] => [(v, 0 + 1)]
  | (k, n) :: rest => if k = v then (k, n + 1) :: rest else (k, n) :: Counts.bump rest v

/-- Lines 85-86: the occurrence count of every value. The properties are kept in
the order of their creation; the program only reads them through `counts[v]` and
through the two sorted arrays of line 88 and 89, so the enumeration order of the
object does not matter. -/
def countsOf (values : List Int) : Counts :=
  values.foldl Counts.bump []

/-- Line 91: `suits.every(s => s === suits[0])`. -/
def isFlush (suits : List String) : Bool :=
  suits.all (fun s => decide (some s = suits.head?))

/-- Line 94: `sortedAsc.every((v,i,a)=> i===0 || v===a[i-1]+1)`. -/
def isStraight (sortedAsc : List Int) : Bool :=
  sortedAsc.enum.all (fun iv =>
    decide (iv.1 = 0) || decide (some iv.2 = (sortedAsc.get? (iv.1 - 1)).map (fun x => x + 1)))

/-- `uniqueValues.find(v => counts[v] === n)`; `none` is `undefined`. -/
def findCount (counts : Counts) (uniqueValues : List Int) (n : Nat) : Option Int :=
  uniqueValues.find? (fun v => decide (counts.get v = some n))

/-- `uniqueValues.filter(v => counts[v] === n)`. -/
def filterCount (counts : Counts) (uniqueValues : List Int) (n : Nat) : List Int :=
  uniqueValues.filter (fun v => decide (counts.get v = some n))

/-- Lines 85-135 of `evaluate`: the classification, once `values` (line 82) and
`suits` (line 83) are known.  The test `sortedAsc.toString() === "10,11,12,13,14"`
is the equality of `sortedAsc` with the array `[10,11,12,13,14]`, since integers
are printed in decimal and joined by commas. -/
def classify (values : List Int) (suits : List String) : Evaluation :=
  let counts := countsOf values
  let uniqueValues := sortDesc (counts.map Prod.fst)
  let countValues := sortCountsDesc (counts.map Prod.snd)
  let flush := isFlush suits
  let sortedAsc := sortAsc values
  let straight := isStraight sortedAsc
  if flush ∧ sortedAsc = [10, 11, 12, 13, 14] then
    ⟨10, values.map some, "Royal Flush"⟩
  else if flush ∧ straight then
    ⟨9, values.map some, "Straight Flush"⟩
  else if countValues.get? 0 = some 4 then
    ⟨8, [findCount counts uniqueValues 4, findCount counts uniqueValues 1], "Four of a Kind"⟩
  else if countValues.get? 0 = some 3 ∧ countValues.get? 1 = some 2 then
    ⟨7, [findCount counts uniqueValues 3, findCount counts uniqueValues 2], "Full House"⟩
  else if flush then
    ⟨6, values.map some, "Flush"⟩
  else if straight then
    ⟨5, values.map some, "Straight"⟩
  else if countValues.get? 0 = some 3 then
    ⟨4, findCount counts uniqueValues 3 :: (filterCount counts uniqueValues 1).map some,
      "Three of a Kind"⟩
  else if countValues.get? 0 = some 2 ∧ countValues.get? 1 = some 2 then
    ⟨3, (filterCount counts uniqueValues 2).map some ++ [findCount counts uniqueValues 1],
      "Two Pair"⟩
  else if countValues.get? 0 = some 2 then
    ⟨2, findCount counts uniqueValues 2 :: (filterCount counts uniqueValues 1).map some,
      "One Pair"⟩
  else
    ⟨1, values.map some, "High Card"⟩

/-- Line 82, first half: `hand.map(c => c.getNumericValue())`.  The result is
`none` as soon as one card has the numeric value `NaN`: sorting an array that
holds `NaN` with the comparator `(a,b)=>b-a` has no specified result, so such
hands are outside the model. -/
def numericValues : List Card → Option (List Int)
  | [] => some []
  | c :: cs =>
    match c.getNumericValue, numericValues cs with
    | some n, some ns => some (n :: ns)
    | _, _ => none

/-- `Game.evaluate` (lines 81-136).  `none` only when a numeric value is `NaN`
(see `numericValues`); the function itself never throws on a list of cards. -/
def evaluate (hand : List Card) : Option Evaluation :=
  match numericValues hand with
  | none => none
  | some nums => some (classify (sortDesc nums) (hand.map Card.suit))

/-! ## Comparison of two hands -/

/-- The comparison `x > y` of two array entries: false as soon as one of them is
`undefined`. -/
def jsGt (x y : Option Int) : Bool :=
  match x, y with
  | some a, some b => decide (b < a)
  | _, _ => false

/-- The comparison `x < y` of two array entries: false as soon as one of them is
`undefined`. -/
def jsLt (x y : Option Int) : Bool :=
  match x, y with
  | some a, some b => decide (a < b)
  | _, _ => false

/-- The loop of lines 145-148 followed by line 150, started at an index `i` with
`pKey` the entries of `pEval[1]` from `i` on and `dKey` those of `dEval[1]`;
reading `dEval[1][i]` past the end gives `undefined`. -/
def compareKeys (pName dName : String) : List (Option Int) → List (Option Int) → String × String
  | [], _ => ("tie", pName)
  | p :: ps, dKey =>
    let d : Option Int := dKey.head?.join
    if jsGt p d then ("win", pName)
    else if jsLt p d then ("lose", dName)
    else compareKeys pName dName ps dKey.tail

/-- `Game.compareHands` (lines 138-151) on the hands `this.player.hand` and
`this.dealer.hand`. `none` only when one of the two evaluations is outside the
model. -/
def compareHands (playerHand dealerHand : List Card) : Option (String × String) :=
  match evaluate playerHand, evaluate dealerHand with
  | some pEval, some dEval =>
    if pEval.category > dEval.category then some ("win", pEval.name)
    else if pEval.category < dEval.category then some ("lose", dEval.name)
    else some (compareKeys pEval.name dEval.name pEval.key dEval.key)
  | _, _ => none

/-- The ranks of a hand are valid when every `value` is one of `Deck.values`. -/
def validRanks (hand : List Card) : Prop :=
  ∀ c ∈ hand, c.value ∈ Deck.values

instance (hand : List Card) : Decidable (validRanks hand) := by
  unfold validRanks; infer_instance

/-! ## The ordering of the specification

Step 3 of the classifier in the specification orders the distinct ranks of a hand
"primarily by descending count, secondarily by descending rank value".  The two
definitions below follow these words; they are not taken from the program, which
builds its keys with `find` and `filter`, and are compared with it further down. -/

/-- The order of the specification on the ranks of a hand: `x` comes before `y` when `x`
occurs more often than `y`, or as often and `x` is at least `y`. -/
def rankOrder (ranks : List Int) (x y : Int) : Prop :=
  ranks.count y < ranks.count x ∨ (ranks.count x = ranks.count y ∧ y ≤ x)

instance (ranks : List Int) : DecidableRel (rankOrder ranks) := fun x y => by
  unfold rankOrder; infer_instance

instance (ranks : List Int) : IsTotal Int (rankOrder ranks) :=
  ⟨fun x y => by unfold rankOrder; omega⟩

instance (ranks : List Int) : IsTrans Int (rankOrder ranks) :=
  ⟨fun x y z => by unfold rankOrder; omega⟩

instance (ranks : List Int) : IsAntisymm Int (rankOrder ranks) :=
  ⟨fun x y => by unfold rankOrder; omega⟩

/-- The list `distinctRanksByCountDesc` of the specification: the distinct ranks, ordered
primarily by descending number of occurrences and secondarily by descending rank. -/
def distinctRanksByCountDesc (ranks : List Int) : List Int :=
  ranks.dedup.insertionSort (rankOrder ranks)


/-! ## Sorting -/

/-- A descending list is left unchanged by the descending sort. -/
theorem sortDesc_sorted {l : List Int} (h : l.Sorted (fun a b => b ≤ a)) : sortDesc l = l :=
  List.Sorted.insertionSort_eq h

/-- The ascending sort of a descending list is its reverse. -/
theorem sortAsc_eq_reverse {l : List Int} (h : l.Sorted (fun a b => b ≤ a)) :
    sortAsc l = l.reverse := by
  apply List.eq_of_perm_of_sorted (r := fun a b : Int => a ≤ b)
  · exact (List.perm_insertionSort _ l).trans (List.reverse_perm l).symm
  · exact List.sorted_insertionSort _ l
  · exact List.pairwise_reverse.mpr h

theorem sortDesc_perm (l : List Int) : (sortDesc l).Perm l :=
  List.perm_insertionSort _ l

theorem sortDesc_isSorted (l : List Int) : (sortDesc l).Sorted (fun a b => b ≤ a) :=
  List.sorted_insertionSort _ l

/-- The descending sort only depends on the multiset of the entries. -/
theorem sortDesc_eq_of_perm {l₁ l₂ : List Int} (h : l₁.Perm l₂) : sortDesc l₁ = sortDesc l₂ := by
  apply List.eq_of_perm_of_sorted (r := fun a b : Int => b ≤ a)
  · exact (sortDesc_perm l₁).trans (h.trans (sortDesc_perm l₂).symm)
  · exact sortDesc_isSorted l₁
  · exact sortDesc_isSorted l₂

/-- A permutation of a descending list sorts to that list. -/
theorem sortDesc_eq_of_perm_sorted {l s : List Int} (h : l.Perm s)
    (hs : s.Sorted (fun a b => b ≤ a)) : sortDesc l = s := by
  rw [sortDesc_eq_of_perm h, sortDesc_sorted hs]

theorem sorted_desc_five {a b c d e : Int} (h1 : b ≤ a) (h2 : c ≤ b) (h3 : d ≤ c) (h4 : e ≤ d) :
    List.Sorted (fun x y : Int => y ≤ x) [a, b, c, d, e] := by
  simp only [List.Sorted, List.pairwise_cons, List.mem_cons, List.mem_singleton,
    List.not_mem_nil, forall_eq_or_imp, forall_eq, IsEmpty.forall_iff, implies_true,
    List.Pairwise.nil, and_true]
  omega

/-- The descending sort of five numbers, written out. -/
theorem sortDesc_five (nums : List Int) (h : nums.length = 5) :
    ∃ a b c d e : Int, sortDesc nums = [a, b, c, d, e] ∧ b ≤ a ∧ c ≤ b ∧ d ≤ c ∧ e ≤ d ∧
      nums.Perm [a, b, c, d, e] := by
  have hl : (sortDesc nums).length = 5 := by
    rw [(sortDesc_perm nums).length_eq, h]
  have hs := sortDesc_isSorted nums
  have hp := sortDesc_perm nums
  match hv : sortDesc nums, hl with
  | [a, b, c, d, e], _ =>
    rw [hv] at hs hp
    simp only [List.Sorted, List.pairwise_cons, List.mem_cons, List.mem_singleton,
      List.not_mem_nil, forall_eq_or_imp, forall_eq, IsEmpty.forall_iff, implies_true,
      List.Pairwise.nil, and_true] at hs
    exact ⟨a, b, c, d, e, rfl, by omega, by omega, by omega, by omega, hp.symm⟩

/-- The test of line 94 on five numbers. -/
theorem isStraight_five (e d c b a : Int) :
    isStraight [e, d, c, b, a] = decide (d = e + 1 ∧ c = d + 1 ∧ b = c + 1 ∧ a = b + 1) := by
  simp [isStraight, List.enum, List.enumFrom]


/-! ## The classification of a descending list of five ranks, shape by shape

The sixteen lemmas below compute `classify` on a descending list `[a, b, c, d, e]`
for each pattern of equalities between neighbours. -/

theorem classify_aaaaa (a : Int) (suits : List String) :
    classify [a, a, a, a, a] suits =
      if isFlush suits then ⟨6, [some a, some a, some a, some a, some a], "Flush"⟩
      else ⟨1, [some a, some a, some a, some a, some a], "High Card"⟩ := by
  have hs : List.Sorted (fun x y : Int => y ≤ x) [a, a, a, a, a] :=
    sorted_desc_five le_rfl le_rfl le_rfl le_rfl
  have hc : countsOf [a, a, a, a, a] = [(a, 5)] := by
    simp [countsOf, Counts.bump]
  simp only [classify, hc, List.map, sortAsc_eq_reverse hs, List.reverse_cons, List.reverse_nil,
    List.nil_append, List.cons_append, isStraight_five]
  simp [sortCountsDesc, sortDesc, findCount, filterCount, Counts.get]
  split_ifs <;> simp_all

theorem classify_aaaab (a b : Int) (h : b < a) (suits : List String) :
    classify [a, a, a, a, b] suits = ⟨8, [some a, some b], "Four of a Kind"⟩ := by
  have hs : List.Sorted (fun x y : Int => y ≤ x) [a, a, a, a, b] :=
    sorted_desc_five le_rfl le_rfl le_rfl h.le
  have hu : List.Sorted (fun x y : Int => y ≤ x) [a, b] := by
    simp [List.Sorted, h.le]
  have hc : countsOf [a, a, a, a, b] = [(a, 4), (b, 1)] := by
    simp [countsOf, Counts.bump, h.ne']
  simp only [classify, hc, List.map, sortDesc_sorted hu, sortAsc_eq_reverse hs, List.reverse_cons,
    List.reverse_nil, List.nil_append, List.cons_append, isStraight_five]
  simp [sortCountsDesc, findCount, filterCount, Counts.get, h.ne, h.ne']
  intros; omega

theorem classify_abbbb (a b : Int) (h : b < a) (suits : List String) :
    classify [a, b, b, b, b] suits = ⟨8, [some b, some a], "Four of a Kind"⟩ := by
  have hs : List.Sorted (fun x y : Int => y ≤ x) [a, b, b, b, b] :=
    sorted_desc_five h.le le_rfl le_rfl le_rfl
  have hu : List.Sorted (fun x y : Int => y ≤ x) [a, b] := by
    simp [List.Sorted, h.le]
  have hc : countsOf [a, b, b, b, b] = [(a, 1), (b, 4)] := by
    simp [countsOf, Counts.bump, h.ne']
  simp only [classify, hc, List.map, sortDesc_sorted hu, sortAsc_eq_reverse hs, List.reverse_cons,
    List.reverse_nil, List.nil_append, List.cons_append, isStraight_five]
  simp [sortCountsDesc, findCount, filterCount, Counts.get, h.ne, h.ne']
  intros; omega

theorem classify_abcdd (a b c d : Int) (hab : b < a) (hbc : c < b) (hcd : d < c)
    (suits : List String) :
    classify [a, b, c, d, d] suits =
      if isFlush suits then ⟨6, [some a, some b, some c, some d, some d], "Flush"⟩
      else ⟨2, [some d, some a, some b, some c], "One Pair"⟩ := by
  have hac : c < a := by omega
  have had : d < a := by omega
  have hbd : d < b := by omega
  have hs : List.Sorted (fun x y : Int => y ≤ x) [a, b, c, d, d] :=
    sorted_desc_five (by omega) (by omega) (by omega) (by omega)
  have hu : List.Sorted (fun x y : Int => y ≤ x) [a, b, c, d] := by
    simp only [List.Sorted, List.pairwise_cons, List.mem_cons, List.mem_singleton,
      List.not_mem_nil, forall_eq_or_imp, forall_eq, IsEmpty.forall_iff, implies_true,
      List.Pairwise.nil, and_true]
    omega
  have hc : countsOf [a, b, c, d, d] = [(a, 1), (b, 1), (c, 1), (d, 2)] := by
    simp [countsOf, Counts.bump,
      hab.ne, hab.ne', hac.ne, hac.ne', had.ne, had.ne',
      hbc.ne, hbc.ne', hbd.ne, hbd.ne', hcd.ne, hcd.ne']
  simp only [classify, hc, List.map, sortDesc_sorted hu, sortAsc_eq_reverse hs,
    List.reverse_cons, List.reverse_nil, List.nil_append, List.cons_append, isStraight_five]
  simp [sortCountsDesc, findCount, filterCount, Counts.get,
      hab.ne, hab.ne', hac.ne, hac.ne', had.ne, had.ne',
      hbc.ne, hbc.ne', hbd.ne, hbd.ne', hcd.ne, hcd.ne']
  intros; omega

theorem classify_abccd (a b c d : Int) (hab : b < a) (hbc : c < b) (hcd : d < c)
    (suits : List String) :
    classify [a, b, c, c, d] suits =
      if isFlush suits then ⟨6, [some a, some b, some c, some c, some d], "Flush"⟩
      else ⟨2, [some c, some a, some b, some d], "One Pair"⟩ := by
  have hac : c < a := by omega
  have had : d < a := by omega
  have hbd : d < b := by omega
  have hs : List.Sorted (fun x y : Int => y ≤ x) [a, b, c, c, d] :=
    sorted_desc_five (by omega) (by omega) (by omega) (by omega)
  have hu : List.Sorted (fun x y : Int => y ≤ x) [a, b, c, d] := by
    simp only [List.Sorted, List.pairwise_cons, List.mem_cons, List.mem_singleton,
      List.not_mem_nil, forall_eq_or_imp, forall_eq, IsEmpty.forall_iff, implies_true,
      List.Pairwise.nil, and_true]
    omega
  have hc : countsOf [a, b, c, c, d] = [(a, 1), (b, 1), (c, 2), (d, 1)] := by
    simp [countsOf, Counts.bump,
      hab.ne, hab.ne', hac.ne, hac.ne', had.ne, had.ne',
      hbc.ne, hbc.ne', hbd.ne, hbd.ne', hcd.ne, hcd.ne']
  simp only [classify, hc, List.map, sortDesc_sorted hu, sortAsc_eq_reverse hs,
    List.reverse_cons, List.reverse_nil, List.nil_append, List.cons_append, isStraight_five]
  simp [sortCountsDesc, findCount, filterCount, Counts.get,
      hab.ne, hab.ne', hac.ne, hac.ne', had.ne, had.ne',
      hbc.ne, hbc.ne', hbd.ne, hbd.ne', hcd.ne, hcd.ne']
  intros; omega

theorem classify_abccc (a b c : Int) (hab : b < a) (hbc : c < b)
    (suits : List String) :
    classify [a, b, c, c, c] suits =
      if isFlush suits then ⟨6, [some a, some b, some c, some c, some c], "Flush"⟩
      else ⟨4, [some c, some a, some b], "Three of a Kind"⟩ := by
  have hac : c < a := by omega
  have hs : List.Sorted (fun x y : Int => y ≤ x) [a, b, c, c, c] :=
    sorted_desc_five (by omega) (by omega) (by omega) (by omega)
  have hu : List.Sorted (fun x y : Int => y ≤ x) [a, b, c] := by
    simp only [List.Sorted, List.pairwise_cons, List.mem_cons, List.mem_singleton,
      List.not_mem_nil, forall_eq_or_imp, forall_eq, IsEmpty.forall_iff, implies_true,
      List.Pairwise.nil, and_true]
    omega
  have hc : countsOf [a, b, c, c, c] = [(a, 1), (b, 1), (c, 3)] := by
    simp [countsOf, Counts.bump,
      hab.ne, hab.ne', hac.ne, hac.ne', hbc.ne, hbc.ne']
  simp only [classify, hc, List.map, sortDesc_sorted hu, sortAsc_eq_reverse hs,
    List.reverse_cons, List.reverse_nil, List.nil_append, List.cons_append, isStraight_five]
  simp [sortCountsDesc, findCount, filterCount, Counts.get,
      hab.ne, hab.ne', hac.ne, hac.ne', hbc.ne, hbc.ne']
  intros; omega

theorem classify_abbcd (a b c d : Int) (hab : b < a) (hbc : c < b) (hcd : d < c)
    (suits : List String) :
    classify [a, b, b, c, d] suits =
      if isFlush suits then ⟨6, [some a, some b, some b, some c, some d], "Flush"⟩
      else ⟨2, [some b, some a, some c, some d], "One Pair"⟩ := by
  have hac : c < a := by omega
  have had : d < a := by omega
  have hbd : d < b := by omega
  have hs : List.Sorted (fun x y : Int => y ≤ x) [a, b, b, c, d] :=
    sorted_desc_five (by omega) (by omega) (by omega) (by omega)
  have hu : List.Sorted (fun x y : Int => y ≤ x) [a, b, c, d] := by
    simp only [List.Sorted, List.pairwise_cons, List.mem_cons, List.mem_singleton,
      List.not_mem_nil, forall_eq_or_imp, forall_eq, IsEmpty.forall_iff, implies_true,
      List.Pairwise.nil, and_true]
    omega
  have hc : countsOf [a, b, b, c, d] = [(a, 1), (b, 2), (c, 1), (d, 1)] := by
    simp [countsOf, Counts.bump,
      hab.ne, hab.ne', hac.ne, hac.ne', had.ne, had.ne',
      hbc.ne, hbc.ne', hbd.ne, hbd.ne', hcd.ne, hcd.ne']
  simp only [classify, hc, List.map, sortDesc_sorted hu, sortAsc_eq_reverse hs,
    List.reverse_cons, List.reverse_nil, List.nil_append, List.cons_append, isStraight_five]
  simp [sortCountsDesc, findCount, filterCount, Counts.get,
      hab.ne, hab.ne', hac.ne, hac.ne', had.ne, had.ne',
      hbc.ne, hbc.ne', hbd.ne, hbd.ne', hcd.ne, hcd.ne']
  intros; omega

theorem classify_abbcc (a b c : Int) (hab : b < a) (hbc : c < b)
    (suits : List String) :
    classify [a, b, b, c, c] suits =
      if isFlush suits then ⟨6, [some a, some b, some b, some c, some c], "Flush"⟩
      else ⟨3, [some b, some c, some a], "Two Pair"⟩ := by
  have hac : c < a := by omega
  have hs : List.Sorted (fun x y : Int => y ≤ x) [a, b, b, c, c] :=
    sorted_desc_five (by omega) (by omega) (by omega) (by omega)
  have hu : List.Sorted (fun x y : Int => y ≤ x) [a, b, c] := by
    simp only [List.Sorted, List.pairwise_cons, List.mem_cons, List.mem_singleton,
      List.not_mem_nil, forall_eq_or_imp, forall_eq, IsEmpty.forall_iff, implies_true,
      List.Pairwise.nil, and_true]
    omega
  have hc : countsOf [a, b, b, c, c] = [(a, 1), (b, 2), (c, 2)] := by
    simp [countsOf, Counts.bump,
      hab.ne, hab.ne', hac.ne, hac.ne', hbc.ne, hbc.ne']
  simp only [classify, hc, List.map, sortDesc_sorted hu, sortAsc_eq_reverse hs,
    List.reverse_cons, List.reverse_nil, List.nil_append, List.cons_append, isStraight_five]
  simp [sortCountsDesc, findCount, filterCount, Counts.get,
      hab.ne, hab.ne', hac.ne, hac.ne', hbc.ne, hbc.ne']
  intros; omega

theorem classify_abbbc (a b c : Int) (hab : b < a) (hbc : c < b)
    (suits : List String) :
    classify [a, b, b, b, c] suits =
      if isFlush suits then ⟨6, [some a, some b, some b, some b, some c], "Flush"⟩
      else ⟨4, [some b, some a, some c], "Three of a Kind"⟩ := by
  have hac : c < a := by omega
  have hs : List.Sorted (fun x y : Int => y ≤ x) [a, b, b, b, c] :=
    sorted_desc_five (by omega) (by omega) (by omega) (by omega)
  have hu : List.Sorted (fun x y : Int => y ≤ x) [a, b, c] := by
    simp only [List.Sorted, List.pairwise_cons, List.mem_cons, List.mem_singleton,
      List.not_mem_nil, forall_eq_or_imp, forall_eq, IsEmpty.forall_iff, implies_true,
      List.Pairwise.nil, and_true]
    omega
  have hc : countsOf [a, b, b, b, c] = [(a, 1), (b, 3), (c, 1)] := by
    simp [countsOf, Counts.bump,
      hab.ne, hab.ne', hac.ne, hac.ne', hbc.ne, hbc.ne']
  simp only [classify, hc, List.map, sortDesc_sorted hu, sortAsc_eq_reverse hs,
    List.reverse_cons, List.reverse_nil, List.nil_append, List.cons_append, isStraight_five]
  simp [sortCountsDesc, findCount, filterCount, Counts.get,
      hab.ne, hab.ne', hac.ne, hac.ne', hbc.ne, hbc.ne']
  intros; omega

theorem classify_aabcd (a b c d : Int) (hab : b < a) (hbc : c < b) (hcd : d < c)
    (suits : List String) :
    classify [a, a, b, c, d] suits =
      if isFlush suits then ⟨6, [some a, some a, some b, some c, some d], "Flush"⟩
      else ⟨2, [some a, some b, some c, some d], "One Pair"⟩ := by
  have hac : c < a := by omega
  have had : d < a := by omega
  have hbd : d < b := by omega
  have hs : List.Sorted (fun x y : Int => y ≤ x) [a, a, b, c, d] :=
    sorted_desc_five (by omega) (by omega) (by omega) (by omega)
  have hu : List.Sorted (fun x y : Int => y ≤ x) [a, b, c, d] := by
    simp only [List.Sorted, List.pairwise_cons, List.mem_cons, List.mem_singleton,
      List.not_mem_nil, forall_eq_or_imp, forall_eq, IsEmpty.forall_iff, implies_true,
      List.Pairwise.nil, and_true]
    omega
  have hc : countsOf [a, a, b, c, d] = [(a, 2), (b, 1), (c, 1), (d, 1)] := by
    simp [countsOf, Counts.bump,
      hab.ne, hab.ne', hac.ne, hac.ne', had.ne, had.ne',
      hbc.ne, hbc.ne', hbd.ne, hbd.ne', hcd.ne, hcd.ne']
  simp only [classify, hc, List.map, sortDesc_sorted hu, sortAsc_eq_reverse hs,
    List.reverse_cons, List.reverse_nil, List.nil_append, List.cons_append, isStraight_five]
  simp [sortCountsDesc, findCount, filterCount, Counts.get,
      hab.ne, hab.ne', hac.ne, hac.ne', had.ne, had.ne',
      hbc.ne, hbc.ne', hbd.ne, hbd.ne', hcd.ne, hcd.ne']
  intros; omega

theorem classify_aabcc (a b c : Int) (hab : b < a) (hbc : c < b)
    (suits : List String) :
    classify [a, a, b, c, c] suits =
      if isFlush suits then ⟨6, [some a, some a, some b, some c, some c], "Flush"⟩
      else ⟨3, [some a, some c, some b], "Two Pair"⟩ := by
  have hac : c < a := by omega
  have hs : List.Sorted (fun x y : Int => y ≤ x) [a, a, b, c, c] :=
    sorted_desc_five (by omega) (by omega) (by omega) (by omega)
  have hu : List.Sorted (fun x y : Int => y ≤ x) [a, b, c] := by
    simp only [List.Sorted, List.pairwise_cons, List.mem_cons, List.mem_singleton,
      List.not_mem_nil, forall_eq_or_imp, forall_eq, IsEmpty.forall_iff, implies_true,
      List.Pairwise.nil, and_true]
    omega
  have hc : countsOf [a, a, b, c, c] = [(a, 2), (b, 1), (c, 2)] := by
    simp [countsOf, Counts.bump,
      hab.ne, hab.ne', hac.ne, hac.ne', hbc.ne, hbc.ne']
  simp only [classify, hc, List.map, sortDesc_sorted hu, sortAsc_eq_reverse hs,
    List.reverse_cons, List.reverse_nil, List.nil_append, List.cons_append, isStraight_five]
  simp [sortCountsDesc, findCount, filterCount, Counts.get,
      hab.ne, hab.ne', hac.ne, hac.ne', hbc.ne, hbc.ne']
  intros; omega

theorem classify_aabbc (a b c : Int) (hab : b < a) (hbc : c < b)
    (suits : List String) :
    classify [a, a, b, b, c] suits =
      if isFlush suits then ⟨6, [some a, some a, some b, some b, some c], "Flush"⟩
      else ⟨3, [some a, some b, some c], "Two Pair"⟩ := by
  have hac : c < a := by omega
  have hs : List.Sorted (fun x y : Int => y ≤ x) [a, a, b, b, c] :=
    sorted_desc_five (by omega) (by omega) (by omega) (by omega)
  have hu : List.Sorted (fun x y : Int => y ≤ x) [a, b, c] := by
    simp only [List.Sorted, List.pairwise_cons, List.mem_cons, List.mem_singleton,
      List.not_mem_nil, forall_eq_or_imp, forall_eq, IsEmpty.forall_iff, implies_true,
      List.Pairwise.nil, and_true]
    omega
  have hc : countsOf [a, a, b, b, c] = [(a, 2), (b, 2), (c, 1)] := by
    simp [countsOf, Counts.bump,
      hab.ne, hab.ne', hac.ne, hac.ne', hbc.ne, hbc.ne']
  simp only [classify, hc, List.map, sortDesc_sorted hu, sortAsc_eq_reverse hs,
    List.reverse_cons, List.reverse_nil, List.nil_append, List.cons_append, isStraight_five]
  simp [sortCountsDesc, findCount, filterCount, Counts.get,
      hab.ne, hab.ne', hac.ne, hac.ne', hbc.ne, hbc.ne']
  intros; omega

theorem classify_aabbb (a b : Int) (hab : b < a)
    (suits : List String) :
    classify [a, a, b, b, b] suits = ⟨7, [some b, some a], "Full House"⟩ := by
  have hs : List.Sorted (fun x y : Int => y ≤ x) [a, a, b, b, b] :=
    sorted_desc_five (by omega) (by omega) (by omega) (by omega)
  have hu : List.Sorted (fun x y : Int => y ≤ x) [a, b] := by
    simp only [List.Sorted, List.pairwise_cons, List.mem_cons, List.mem_singleton,
      List.not_mem_nil, forall_eq_or_imp, forall_eq, IsEmpty.forall_iff, implies_true,
      List.Pairwise.nil, and_true]
    omega
  have hc : countsOf [a, a, b, b, b] = [(a, 2), (b, 3)] := by
    simp [countsOf, Counts.bump,
      hab.ne, hab.ne']
  simp only [classify, hc, List.map, sortDesc_sorted hu, sortAsc_eq_reverse hs,
    List.reverse_cons, List.reverse_nil, List.nil_append, List.cons_append, isStraight_five]
  simp [sortCountsDesc, findCount, filterCount, Counts.get,
      hab.ne, hab.ne']
  intros; omega

theorem classify_aaabc (a b c : Int) (hab : b < a) (hbc : c < b)
    (suits : List String) :
    classify [a, a, a, b, c] suits =
      if isFlush suits then ⟨6, [some a, some a, some a, some b, some c], "Flush"⟩
      else ⟨4, [some a, some b, some c], "Three of a Kind"⟩ := by
  have hac : c < a := by omega
  have hs : List.Sorted (fun x y : Int => y ≤ x) [a, a, a, b, c] :=
    sorted_desc_five (by omega) (by omega) (by omega) (by omega)
  have hu : List.Sorted (fun x y : Int => y ≤ x) [a, b, c] := by
    simp only [List.Sorted, List.pairwise_cons, List.mem_cons, List.mem_singleton,
      List.not_mem_nil, forall_eq_or_imp, forall_eq, IsEmpty.forall_iff, implies_true,
      List.Pairwise.nil, and_true]
    omega
  have hc : countsOf [a, a, a, b, c] = [(a, 3), (b, 1), (c, 1)] := by
    simp [countsOf, Counts.bump,
      hab.ne, hab.ne', hac.ne, hac.ne', hbc.ne, hbc.ne']
  simp only [classify, hc, List.map, sortDesc_sorted hu, sortAsc_eq_reverse hs,
    List.reverse_cons, List.reverse_nil, List.nil_append, List.cons_append, isStraight_five]
  simp [sortCountsDesc, findCount, filterCount, Counts.get,
      hab.ne, hab.ne', hac.ne, hac.ne', hbc.ne, hbc.ne']
  intros; omega

theorem classify_aaabb (a b : Int) (hab : b < a)
    (suits : List String) :
    classify [a, a, a, b, b] suits = ⟨7, [some a, some b], "Full House"⟩ := by
  have hs : List.Sorted (fun x y : Int => y ≤ x) [a, a, a, b, b] :=
    sorted_desc_five (by omega) (by omega) (by omega) (by omega)
  have hu : List.Sorted (fun x y : Int => y ≤ x) [a, b] := by
    simp only [List.Sorted, List.pairwise_cons, List.mem_cons, List.mem_singleton,
      List.not_mem_nil, forall_eq_or_imp, forall_eq, IsEmpty.forall_iff, implies_true,
      List.Pairwise.nil, and_true]
    omega
  have hc : countsOf [a, a, a, b, b] = [(a, 3), (b, 2)] := by
    simp [countsOf, Counts.bump,
      hab.ne, hab.ne']
  simp only [classify, hc, List.map, sortDesc_sorted hu, sortAsc_eq_reverse hs,
    List.reverse_cons, List.reverse_nil, List.nil_append, List.cons_append, isStraight_five]
  simp [sortCountsDesc, findCount, filterCount, Counts.get,
      hab.ne, hab.ne']
  intros; omega


theorem classify_abcde (a b c d e : Int) (hab : b < a) (hbc : c < b) (hcd : d < c) (hde : e < d)
    (suits : List String) :
    classify [a, b, c, d, e] suits =
      if isFlush suits = true ∧ e = 10 ∧ d = 11 ∧ c = 12 ∧ b = 13 ∧ a = 14 then
        ⟨10, [some a, some b, some c, some d, some e], "Royal Flush"⟩
      else if isFlush suits = true ∧ d = e + 1 ∧ c = d + 1 ∧ b = c + 1 ∧ a = b + 1 then
        ⟨9, [some a, some b, some c, some d, some e], "Straight Flush"⟩
      else if isFlush suits = true then
        ⟨6, [some a, some b, some c, some d, some e], "Flush"⟩
      else if d = e + 1 ∧ c = d + 1 ∧ b = c + 1 ∧ a = b + 1 then
        ⟨5, [some a, some b, some c, some d, some e], "Straight"⟩
      else ⟨1, [some a, some b, some c, some d, some e], "High Card"⟩ := by
  have hac : c < a := by omega
  have had : d < a := by omega
  have hae : e < a := by omega
  have hbd : d < b := by omega
  have hbe : e < b := by omega
  have hce : e < c := by omega
  have hs : List.Sorted (fun x y : Int => y ≤ x) [a, b, c, d, e] :=
    sorted_desc_five (by omega) (by omega) (by omega) (by omega)
  have hc : countsOf [a, b, c, d, e] = [(a, 1), (b, 1), (c, 1), (d, 1), (e, 1)] := by
    simp [countsOf, Counts.bump, hab.ne', hac.ne', had.ne', hae.ne', hbc.ne', hbd.ne', hbe.ne',
      hcd.ne', hce.ne', hde.ne']
  simp only [classify, hc, List.map, sortDesc_sorted hs, sortAsc_eq_reverse hs,
    List.reverse_cons, List.reverse_nil, List.nil_append, List.cons_append, isStraight_five]
  simp [sortCountsDesc]


/-- The classification of any descending list of five ranks: the sixteen patterns of
equalities between neighbours, each with the value of `classify`.  In a pattern a
group of equal ranks is named by its first member. -/
theorem classify_five_cases (a b c d e : Int) (h1 : b ≤ a) (h2 : c ≤ b) (h3 : d ≤ c) (h4 : e ≤ d)
    (suits : List String) :
    (a = b ∧ b = c ∧ c = d ∧ d = e ∧
      classify [a, b, c, d, e] suits =
        if isFlush suits then ⟨6, [some a, some b, some c, some d, some e], "Flush"⟩
        else ⟨1, [some a, some b, some c, some d, some e], "High Card"⟩) ∨
    (a = b ∧ b = c ∧ c = d ∧ e < d ∧
      classify [a, b, c, d, e] suits =
        ⟨8, [some a, some e], "Four of a Kind"⟩) ∨
    (a = b ∧ b = c ∧ d < c ∧ d = e ∧
      classify [a, b, c, d, e] suits =
        ⟨7, [some a, some d], "Full House"⟩) ∨
    (a = b ∧ b = c ∧ d < c ∧ e < d ∧
      classify [a, b, c, d, e] suits =
        if isFlush suits then ⟨6, [some a, some b, some c, some d, some e], "Flush"⟩
        else ⟨4, [some a, some d, some e], "Three of a Kind"⟩) ∨
    (a = b ∧ c < b ∧ c = d ∧ d = e ∧
      classify [a, b, c, d, e] suits =
        ⟨7, [some c, some a], "Full House"⟩) ∨
    (a = b ∧ c < b ∧ c = d ∧ e < d ∧
      classify [a, b, c, d, e] suits =
        if isFlush suits then ⟨6, [some a, some b, some c, some d, some e], "Flush"⟩
        else ⟨3, [some a, some c, some e], "Two Pair"⟩) ∨
    (a = b ∧ c < b ∧ d < c ∧ d = e ∧
      classify [a, b, c, d, e] suits =
        if isFlush suits then ⟨6, [some a, some b, some c, some d, some e], "Flush"⟩
        else ⟨3, [some a, some d, some c], "Two Pair"⟩) ∨
    (a = b ∧ c < b ∧ d < c ∧ e < d ∧
      classify [a, b, c, d, e] suits =
        if isFlush suits then ⟨6, [some a, some b, some c, some d, some e], "Flush"⟩
        else ⟨2, [some a, some c, some d, some e], "One Pair"⟩) ∨
    (b < a ∧ b = c ∧ c = d ∧ d = e ∧
      classify [a, b, c, d, e] suits =
        ⟨8, [some b, some a], "Four of a Kind"⟩) ∨
    (b < a ∧ b = c ∧ c = d ∧ e < d ∧
      classify [a, b, c, d, e] suits =
        if isFlush suits then ⟨6, [some a, some b, some c, some d, some e], "Flush"⟩
        else ⟨4, [some b, some a, some e], "Three of a Kind"⟩) ∨
    (b < a ∧ b = c ∧ d < c ∧ d = e ∧
      classify [a, b, c, d, e] suits =
        if isFlush suits then ⟨6, [some a, some b, some c, some d, some e], "Flush"⟩
        else ⟨3, [some b, some d, some a], "Two Pair"⟩) ∨
    (b < a ∧ b = c ∧ d < c ∧ e < d ∧
      classify [a, b, c, d, e] suits =
        if isFlush suits then ⟨6, [some a, some b, some c, some d, some e], "Flush"⟩
        else ⟨2, [some b, some a, some d, some e], "One Pair"⟩) ∨
    (b < a ∧ c < b ∧ c = d ∧ d = e ∧
      classify [a, b, c, d, e] suits =
        if isFlush suits then ⟨6, [some a, some b, some c, some d, some e], "Flush"⟩
        else ⟨4, [some c, some a, some b], "Three of a Kind"⟩) ∨
    (b < a ∧ c < b ∧ c = d ∧ e < d ∧
      classify [a, b, c, d, e] suits =
        if isFlush suits then ⟨6, [some a, some b, some c, some d, some e], "Flush"⟩
        else ⟨2, [some c, some a, some b, some e], "One Pair"⟩) ∨
    (b < a ∧ c < b ∧ d < c ∧ d = e ∧
      classify [a, b, c, d, e] suits =
        if isFlush suits then ⟨6, [some a, some b, some c, some d, some e], "Flush"⟩
        else ⟨2, [some d, some a, some b, some c], "One Pair"⟩) ∨
    (b < a ∧ c < b ∧ d < c ∧ e < d ∧
      classify [a, b, c, d, e] suits =
        if isFlush suits = true ∧ e = 10 ∧ d = 11 ∧ c = 12 ∧ b = 13 ∧ a = 14 then
          ⟨10, [some a, some b, some c, some d, some e], "Royal Flush"⟩
        else if isFlush suits = true ∧ d = e + 1 ∧ c = d + 1 ∧ b = c + 1 ∧ a = b + 1 then
          ⟨9, [some a, some b, some c, some d, some e], "Straight Flush"⟩
        else if isFlush suits = true then ⟨6, [some a, some b, some c, some d, some e], "Flush"⟩
        else if d = e + 1 ∧ c = d + 1 ∧ b = c + 1 ∧ a = b + 1 then
          ⟨5, [some a, some b, some c, some d, some e], "Straight"⟩
        else ⟨1, [some a, some b, some c, some d, some e], "High Card"⟩) := by
  by_cases e1 : a = b <;> by_cases e2 : b = c <;> by_cases e3 : c = d <;> by_cases e4 : d = e
  · subst e1 e2 e3 e4
    left
    exact ⟨rfl, rfl, rfl, rfl,
      classify_aaaaa _ _⟩
  · subst e1 e2 e3
    iterate 1 right
    left
    exact ⟨rfl, rfl, rfl, by omega,
      classify_aaaab _ _ (by omega) _⟩
  · subst e1 e2 e4
    iterate 2 right
    left
    exact ⟨rfl, rfl, by omega, rfl,
      classify_aaabb _ _ (by omega) _⟩
  · subst e1 e2
    iterate 3 right
    left
    exact ⟨rfl, rfl, by omega, by omega,
      classify_aaabc _ _ _ (by omega) (by omega) _⟩
  · subst e1 e3 e4
    iterate 4 right
    left
    exact ⟨rfl, by omega, rfl, rfl,
      classify_aabbb _ _ (by omega) _⟩
  · subst e1 e3
    iterate 5 right
    left
    exact ⟨rfl, by omega, rfl, by omega,
      classify_aabbc _ _ _ (by omega) (by omega) _⟩
  · subst e1 e4
    iterate 6 right
    left
    exact ⟨rfl, by omega, by omega, rfl,
      classify_aabcc _ _ _ (by omega) (by omega) _⟩
  · subst e1
    iterate 7 right
    left
    exact ⟨rfl, by omega, by omega, by omega,
      classify_aabcd _ _ _ _ (by omega) (by omega) (by omega) _⟩
  · subst e2 e3 e4
    iterate 8 right
    left
    exact ⟨by omega, rfl, rfl, rfl,
      classify_abbbb _ _ (by omega) _⟩
  · subst e2 e3
    iterate 9 right
    left
    exact ⟨by omega, rfl, rfl, by omega,
      classify_abbbc _ _ _ (by omega) (by omega) _⟩
  · subst e2 e4
    iterate 10 right
    left
    exact ⟨by omega, rfl, by omega, rfl,
      classify_abbcc _ _ _ (by omega) (by omega) _⟩
  · subst e2
    iterate 11 right
    left
    exact ⟨by omega, rfl, by omega, by omega,
      classify_abbcd _ _ _ _ (by omega) (by omega) (by omega) _⟩
  · subst e3 e4
    iterate 12 right
    left
    exact ⟨by omega, by omega, rfl, rfl,
      classify_abccc _ _ _ (by omega) (by omega) _⟩
  · subst e3
    iterate 13 right
    left
    exact ⟨by omega, by omega, rfl, by omega,
      classify_abccd _ _ _ _ (by omega) (by omega) (by omega) _⟩
  · subst e4
    iterate 14 right
    left
    exact ⟨by omega, by omega, by omega, rfl,
      classify_abcdd _ _ _ _ (by omega) (by omega) (by omega) _⟩
  · iterate 15 right
    exact ⟨by omega, by omega, by omega, by omega,
      classify_abcde _ _ _ _ _ (by omega) (by omega) (by omega) (by omega) _⟩


/-! ## From cards to ranks -/

/-- On the thirteen faces of the deck the numeric value is defined and lies in `[2, 14]`. -/
theorem getNumericValue_of_valid (c : Card) (h : c.value ∈ Deck.values) :
    ∃ n : Int, c.getNumericValue = some n ∧ 2 ≤ n ∧ n ≤ 14 := by
  obtain ⟨s, v⟩ := c
  simp only [Deck.values, List.mem_cons, List.mem_singleton, List.not_mem_nil, or_false] at h
  rcases h with h | h | h | h | h | h | h | h | h | h | h | h | h <;> subst h
  · exact ⟨2, rfl, by decide, by decide⟩
  · exact ⟨3, rfl, by decide, by decide⟩
  · exact ⟨4, rfl, by decide, by decide⟩
  · exact ⟨5, rfl, by decide, by decide⟩
  · exact ⟨6, rfl, by decide, by decide⟩
  · exact ⟨7, rfl, by decide, by decide⟩
  · exact ⟨8, rfl, by decide, by decide⟩
  · exact ⟨9, rfl, by decide, by decide⟩
  · exact ⟨10, rfl, by decide, by decide⟩
  · exact ⟨11, rfl, by decide, by decide⟩
  · exact ⟨12, rfl, by decide, by decide⟩
  · exact ⟨13, rfl, by decide, by decide⟩
  · exact ⟨14, rfl, by decide, by decide⟩

theorem numericValues_cons_eq_some {c : Card} {cs : List Card} {nums : List Int}
    (h : numericValues (c :: cs) = some nums) :
    ∃ n ns, c.getNumericValue = some n ∧ numericValues cs = some ns ∧ nums = n :: ns := by
  unfold numericValues at h
  split at h
  · next n ns hn hns =>
    simp only [Option.some.injEq] at h
    exact ⟨n, ns, hn, hns, h.symm⟩
  · simp at h

/-- The list of numeric values has one entry per card. -/
theorem numericValues_length {hand : List Card} {nums : List Int}
    (h : numericValues hand = some nums) : nums.length = hand.length := by
  induction hand generalizing nums with
  | nil =>
    simp only [numericValues, Option.some.injEq] at h
    subst h; rfl
  | cons c cs ih =>
    obtain ⟨n, ns, _, hns, rfl⟩ := numericValues_cons_eq_some h
    simp [ih hns]

/-- With valid ranks every numeric value is defined and lies in `[2, 14]`. -/
theorem numericValues_of_valid (hand : List Card) (hv : validRanks hand) :
    ∃ nums, numericValues hand = some nums ∧ ∀ n ∈ nums, 2 ≤ n ∧ n ≤ 14 := by
  induction hand with
  | nil => exact ⟨[], rfl, by simp⟩
  | cons c cs ih =>
    obtain ⟨n, hn, hn2, hn14⟩ := getNumericValue_of_valid c (hv c (List.mem_cons_self _ _))
    obtain ⟨ns, hns, hb⟩ := ih (fun x hx => hv x (List.mem_cons_of_mem _ hx))
    refine ⟨n :: ns, by simp [numericValues, hn, hns], ?_⟩
    intro m hm
    rcases List.mem_cons.mp hm with rfl | hm
    · exact ⟨hn2, hn14⟩
    · exact hb m hm

/-- `evaluate` is `classify` applied to the descending numeric values and the suits. -/
theorem evaluate_eq {hand : List Card} {nums : List Int} (h : numericValues hand = some nums) :
    evaluate hand = some (classify (sortDesc nums) (hand.map Card.suit)) := by
  simp [evaluate, h]

/-- The evaluation of five cards goes through a descending list of five ranks. -/
theorem evaluate_five {hand : List Card} {nums : List Int} (hlen : hand.length = 5)
    (h : numericValues hand = some nums) :
    ∃ a b c d e : Int, b ≤ a ∧ c ≤ b ∧ d ≤ c ∧ e ≤ d ∧ nums.Perm [a, b, c, d, e] ∧
      sortDesc nums = [a, b, c, d, e] ∧
      evaluate hand = some (classify [a, b, c, d, e] (hand.map Card.suit)) := by
  obtain ⟨a, b, c, d, e, hs, h1, h2, h3, h4, hp⟩ :=
    sortDesc_five nums ((numericValues_length h).trans hlen)
  exact ⟨a, b, c, d, e, h1, h2, h3, h4, hp, hs, by rw [evaluate_eq h, hs]⟩

/-- The test of line 91 holds exactly when all the cards have one and the same suit. -/
theorem isFlush_iff (hand : List Card) :
    isFlush (hand.map Card.suit) = true ↔ ∃ s, ∀ c ∈ hand, c.suit = s := by
  cases hand with
  | nil => simp [isFlush]
  | cons c cs =>
    simp only [isFlush, List.map_cons, List.head?_cons, Option.some.injEq, List.all_cons,
      decide_True, Bool.true_and, List.all_eq_true, List.mem_map, decide_eq_true_eq,
      forall_exists_index, and_imp, forall_apply_eq_imp_iff₂, List.mem_cons, forall_eq_or_imp]
    constructor
    · intro h
      exact ⟨c.suit, rfl, h⟩
    · rintro ⟨s, hc, hs⟩ x hx
      rw [hs x hx, hc]


/-! ## Shape of an evaluation -/

/-- On a descending list of five ranks in `[2, 14]`, `classify` returns one of the ten
categories with its name, a key of the length of that category, and key entries that
are all defined and in `[2, 14]`. -/
theorem classify_five_wellformed (a b c d e : Int) (h1 : b ≤ a) (h2 : c ≤ b) (h3 : d ≤ c)
    (h4 : e ≤ d) (hlo : 2 ≤ e) (hhi : a ≤ 14) (suits : List String) (ev : Evaluation)
    (hev : classify [a, b, c, d, e] suits = ev) :
    (∀ k ∈ ev.key, ∃ n : Int, k = some n ∧ 2 ≤ n ∧ n ≤ 14) ∧
    ((ev.category = 1 ∧ ev.name = "High Card" ∧ ev.key.length = 5) ∨
      (ev.category = 2 ∧ ev.name = "One Pair" ∧ ev.key.length = 4) ∨
      (ev.category = 3 ∧ ev.name = "Two Pair" ∧ ev.key.length = 3) ∨
      (ev.category = 4 ∧ ev.name = "Three of a Kind" ∧ ev.key.length = 3) ∨
      (ev.category = 5 ∧ ev.name = "Straight" ∧ ev.key.length = 5) ∨
      (ev.category = 6 ∧ ev.name = "Flush" ∧ ev.key.length = 5) ∨
      (ev.category = 7 ∧ ev.name = "Full House" ∧ ev.key.length = 2) ∨
      (ev.category = 8 ∧ ev.name = "Four of a Kind" ∧ ev.key.length = 2) ∨
      (ev.category = 9 ∧ ev.name = "Straight Flush" ∧ ev.key.length = 5) ∨
      (ev.category = 10 ∧ ev.name = "Royal Flush" ∧ ev.key.length = 5)) := by
  subst hev
  rcases classify_five_cases a b c d e h1 h2 h3 h4 suits with
    ⟨_, _, _, _, hc⟩ | ⟨_, _, _, _, hc⟩ | ⟨_, _, _, _, hc⟩ | ⟨_, _, _, _, hc⟩ |
    ⟨_, _, _, _, hc⟩ | ⟨_, _, _, _, hc⟩ | ⟨_, _, _, _, hc⟩ | ⟨_, _, _, _, hc⟩ |
    ⟨_, _, _, _, hc⟩ | ⟨_, _, _, _, hc⟩ | ⟨_, _, _, _, hc⟩ | ⟨_, _, _, _, hc⟩ |
    ⟨_, _, _, _, hc⟩ | ⟨_, _, _, _, hc⟩ | ⟨_, _, _, _, hc⟩ | ⟨_, _, _, _, hc⟩
  all_goals
    rw [hc]
    first
      | split_ifs
      | skip
    all_goals
      refine ⟨?_, by simp⟩
      simp only [List.mem_cons, List.mem_singleton, List.not_mem_nil, or_false,
        forall_eq_or_imp, forall_eq, Option.some.injEq, exists_eq_left']
      omega

/-- The ranks of a five-card hand with valid ranks, in descending order, with their bounds. -/
theorem evaluate_five_valid {hand : List Card} (hlen : hand.length = 5) (hv : validRanks hand) :
    ∃ (nums : List Int) (a b c d e : Int), numericValues hand = some nums ∧
      b ≤ a ∧ c ≤ b ∧ d ≤ c ∧ e ≤ d ∧ 2 ≤ e ∧ a ≤ 14 ∧ nums.Perm [a, b, c, d, e] ∧
      evaluate hand = some (classify [a, b, c, d, e] (hand.map Card.suit)) := by
  obtain ⟨nums, hn, hb⟩ := numericValues_of_valid hand hv
  obtain ⟨a, b, c, d, e, h1, h2, h3, h4, hp, _, hev⟩ := evaluate_five hlen hn
  have ha := hb a (hp.mem_iff.mpr (by simp))
  have he := hb e (hp.mem_iff.mpr (by simp))
  exact ⟨nums, a, b, c, d, e, hn, h1, h2, h3, h4, he.1, ha.2, hp, hev⟩


/-! ## The comparison loop -/

theorem jsGt_self (x : Option Int) : jsGt x x = false := by
  cases x <;> simp [jsGt]

theorem jsLt_self (x : Option Int) : jsLt x x = false := by
  cases x <;> simp [jsLt]

/-- A key compared with itself gives a tie. -/
theorem compareKeys_self (pName dName : String) (key : List (Option Int)) :
    compareKeys pName dName key key = ("tie", pName) := by
  suffices h : ∀ p d : List (Option Int), p = d → compareKeys pName dName p d = ("tie", pName) from
    h key key rfl
  intro p
  induction p with
  | nil => intro d _; rfl
  | cons x xs ih =>
    intro d hd
    subst hd
    simpa [compareKeys, jsGt_self, jsLt_self] using ih xs rfl

/-- The loop stops at the first index where the two keys have different (defined)
entries, with the verdict given by these two entries. -/
theorem compareKeys_first_diff (pName dName : String) (p d : List (Option Int)) (i : Nat)
    (x y : Int) (hsame : ∀ j, j < i → p.get? j = d.get? j)
    (hx : p.get? i = some (some x)) (hy : d.get? i = some (some y)) :
    (y < x → compareKeys pName dName p d = ("win", pName)) ∧
    (x < y → compareKeys pName dName p d = ("lose", dName)) := by
  induction p generalizing d i with
  | nil => simp at hx
  | cons p0 ps ih =>
    cases i with
    | zero =>
      cases d with
      | nil => simp at hy
      | cons d0 ds =>
        simp only [List.get?_cons_zero, Option.some.injEq] at hx hy
        subst hx hy
        constructor
        · intro h
          simp [compareKeys, jsGt, h]
        · intro h
          have h' : ¬ x < y → False := fun hn => hn h
          simp [compareKeys, jsGt, jsLt, h, not_lt.mpr h.le]
    | succ i =>
      cases d with
      | nil =>
        have := hsame 0 (Nat.succ_pos i)
        simp at this
      | cons d0 ds =>
        have h0 := hsame 0 (Nat.succ_pos i)
        simp only [List.get?_cons_zero, Option.some.injEq] at h0
        subst h0
        have hrec := ih ds i (fun j hj => by simpa using hsame (j + 1) (Nat.succ_lt_succ hj))
          (by simpa using hx) (by simpa using hy)
        simpa [compareKeys, jsGt_self, jsLt_self] using hrec

/-- Two keys of the same length with defined entries tie exactly when they are equal. -/
theorem compareKeys_tie_iff (pName dName : String) (p d : List (Option Int))
    (hlen : p.length = d.length) (hp : ∀ k ∈ p, k ≠ none) (hd : ∀ k ∈ d, k ≠ none) :
    (compareKeys pName dName p d).1 = "tie" ↔ p = d := by
  induction p generalizing d with
  | nil =>
    cases d with
    | nil => simp [compareKeys]
    | cons d0 ds => simp at hlen
  | cons p0 ps ih =>
    cases d with
    | nil => simp at hlen
    | cons d0 ds =>
      have hlen' : ps.length = ds.length := by simpa using hlen
      have ih' := ih ds hlen' (fun k hk => hp k (List.mem_cons_of_mem _ hk))
        (fun k hk => hd k (List.mem_cons_of_mem _ hk))
      cases hp0 : p0 with
      | none => exact absurd hp0 (hp p0 (List.mem_cons_self _ _))
      | some x =>
        cases hd0 : d0 with
        | none => exact absurd hd0 (hd d0 (List.mem_cons_self _ _))
        | some y =>
          simp only [compareKeys, List.head?_cons, Option.join, Option.bind_some, id_eq, jsGt,
            jsLt, decide_eq_true_eq, List.tail_cons, List.cons.injEq, Option.some.injEq]
          by_cases hgt : y < x
          · have hne : ¬ x = y := by omega
            simp [hgt, hne]
          · by_cases hlt : x < y
            · have hne : ¬ x = y := by omega
              simp [hgt, hlt, hne]
            · have heq : x = y := by omega
              simp [hgt, hlt, heq, ih']

/-- The second component of the result of the loop is one of the two names. -/
theorem compareKeys_name (name : String) (p d : List (Option Int)) :
    (compareKeys name name p d).2 = name := by
  induction p generalizing d with
  | nil => rfl
  | cons p0 ps ih =>
    simp only [compareKeys]
    split_ifs
    · rfl
    · rfl
    · exact ih _


/-! ## Claims about `compareHands` and the shape of an evaluation -/

/-- C1: for two five-card hands with valid ranks, both evaluations exist, and when the
player's category number is strictly greater than the dealer's, `compareHands` returns
`["win", player's category name]`; when it is strictly smaller, `compareHands` returns
`["lose", dealer's category name]`.  The tie-break keys play no part. -/
theorem compareHands_category_decides (player dealer : List Card)
    (hp : player.length = 5) (hd : dealer.length = 5)
    (vp : validRanks player) (vd : validRanks dealer) :
    ∃ pEval dEval : Evaluation, evaluate player = some pEval ∧ evaluate dealer = some dEval ∧
      (dEval.category < pEval.category →
        compareHands player dealer = some ("win", pEval.name)) ∧
      (pEval.category < dEval.category →
        compareHands player dealer = some ("lose", dEval.name)) := by
  obtain ⟨_, a, b, c, d, e, _, _, _, _, _, _, _, _, hpe⟩ := evaluate_five_valid hp vp
  obtain ⟨_, a', b', c', d', e', _, _, _, _, _, _, _, _, hde⟩ := evaluate_five_valid hd vd
  refine ⟨_, _, hpe, hde, ?_, ?_⟩
  · intro h
    simp only [compareHands, hpe, hde, gt_iff_lt, h, if_true]
  · intro h
    have h' : ¬ (classify [a', b', c', d', e'] (dealer.map Card.suit)).category <
        (classify [a, b, c, d, e] (player.map Card.suit)).category := by omega
    simp only [compareHands, hpe, hde, gt_iff_lt, h, h', if_true, if_false]

/-- Witness for C1: four twos with a five (key `[2, 5]`) beat nines full of threes
(key `[9, 3]`). -/
theorem compareHands_category_decides_witness :
    validRanks [⟨"♠", "2"⟩, ⟨"♥", "2"⟩, ⟨"♦", "2"⟩, ⟨"♣", "2"⟩, ⟨"♠", "5"⟩] ∧
    validRanks [⟨"♠", "9"⟩, ⟨"♥", "9"⟩, ⟨"♦", "9"⟩, ⟨"♠", "3"⟩, ⟨"♥", "3"⟩] ∧
    compareHands [⟨"♠", "2"⟩, ⟨"♥", "2"⟩, ⟨"♦", "2"⟩, ⟨"♣", "2"⟩, ⟨"♠", "5"⟩]
      [⟨"♠", "9"⟩, ⟨"♥", "9"⟩, ⟨"♦", "9"⟩, ⟨"♠", "3"⟩, ⟨"♥", "3"⟩] =
        some ("win", "Four of a Kind") := by
  refine ⟨by decide, by decide, ?_⟩
  obtain ⟨pEval, dEval, hpe, hde, hwin, _⟩ := compareHands_category_decides
    [⟨"♠", "2"⟩, ⟨"♥", "2"⟩, ⟨"♦", "2"⟩, ⟨"♣", "2"⟩, ⟨"♠", "5"⟩]
    [⟨"♠", "9"⟩, ⟨"♥", "9"⟩, ⟨"♦", "9"⟩, ⟨"♠", "3"⟩, ⟨"♥", "3"⟩]
    rfl rfl (by decide) (by decide)
  have hp : evaluate [⟨"♠", "2"⟩, ⟨"♥", "2"⟩, ⟨"♦", "2"⟩, ⟨"♣", "2"⟩, ⟨"♠", "5"⟩] =
      some ⟨8, [some 2, some 5], "Four of a Kind"⟩ := by decide
  have hd : evaluate [⟨"♠", "9"⟩, ⟨"♥", "9"⟩, ⟨"♦", "9"⟩, ⟨"♠", "3"⟩, ⟨"♥", "3"⟩] =
      some ⟨7, [some 9, some 3], "Full House"⟩ := by decide
  rw [hp] at hpe
  rw [hd] at hde
  cases hpe
  cases hde
  exact hwin (by decide)

/-- C2: a five-card hand with valid ranks compared with itself gives
`["tie", name]`, where `name` is the category name `evaluate` gives for the hand. -/
theorem compareHands_self_tie (hand : List Card) (hlen : hand.length = 5)
    (hv : validRanks hand) :
    ∃ ev : Evaluation, evaluate hand = some ev ∧
      compareHands hand hand = some ("tie", ev.name) := by
  obtain ⟨_, a, b, c, d, e, _, _, _, _, _, _, _, _, hev⟩ := evaluate_five_valid hlen hv
  refine ⟨_, hev, ?_⟩
  simp only [compareHands, hev, gt_iff_lt, lt_self_iff_false, if_false, compareKeys_self]

/-- Witness for C2: the hand 2♠ 5♥ 9♦ J♣ K♠ ties with itself as High Card. -/
theorem compareHands_self_tie_witness :
    validRanks [⟨"♠", "2"⟩, ⟨"♥", "5"⟩, ⟨"♦", "9"⟩, ⟨"♣", "J"⟩, ⟨"♠", "K"⟩] ∧
    compareHands [⟨"♠", "2"⟩, ⟨"♥", "5"⟩, ⟨"♦", "9"⟩, ⟨"♣", "J"⟩, ⟨"♠", "K"⟩]
      [⟨"♠", "2"⟩, ⟨"♥", "5"⟩, ⟨"♦", "9"⟩, ⟨"♣", "J"⟩, ⟨"♠", "K"⟩] =
        some ("tie", "High Card") := by
  refine ⟨by decide, ?_⟩
  obtain ⟨ev, hev, htie⟩ := compareHands_self_tie
    [⟨"♠", "2"⟩, ⟨"♥", "5"⟩, ⟨"♦", "9"⟩, ⟨"♣", "J"⟩, ⟨"♠", "K"⟩] rfl (by decide)
  have h : evaluate [⟨"♠", "2"⟩, ⟨"♥", "5"⟩, ⟨"♦", "9"⟩, ⟨"♣", "J"⟩, ⟨"♠", "K"⟩] =
      some ⟨1, [some 13, some 11, some 9, some 5, some 2], "High Card"⟩ := by decide
  rw [h] at hev
  cases hev
  exact htie

/-- For five-card hands with valid ranks, equal categories give equal names and keys
of equal length. -/
theorem same_category_same_shape (pEval dEval : Evaluation)
    (hP : (pEval.category = 1 ∧ pEval.name = "High Card" ∧ pEval.key.length = 5) ∨
      (pEval.category = 2 ∧ pEval.name = "One Pair" ∧ pEval.key.length = 4) ∨
      (pEval.category = 3 ∧ pEval.name = "Two Pair" ∧ pEval.key.length = 3) ∨
      (pEval.category = 4 ∧ pEval.name = "Three of a Kind" ∧ pEval.key.length = 3) ∨
      (pEval.category = 5 ∧ pEval.name = "Straight" ∧ pEval.key.length = 5) ∨
      (pEval.category = 6 ∧ pEval.name = "Flush" ∧ pEval.key.length = 5) ∨
      (pEval.category = 7 ∧ pEval.name = "Full House" ∧ pEval.key.length = 2) ∨
      (pEval.category = 8 ∧ pEval.name = "Four of a Kind" ∧ pEval.key.length = 2) ∨
      (pEval.category = 9 ∧ pEval.name = "Straight Flush" ∧ pEval.key.length = 5) ∨
      (pEval.category = 10 ∧ pEval.name = "Royal Flush" ∧ pEval.key.length = 5))
    (hD : (dEval.category = 1 ∧ dEval.name = "High Card" ∧ dEval.key.length = 5) ∨
      (dEval.category = 2 ∧ dEval.name = "One Pair" ∧ dEval.key.length = 4) ∨
      (dEval.category = 3 ∧ dEval.name = "Two Pair" ∧ dEval.key.length = 3) ∨
      (dEval.category = 4 ∧ dEval.name = "Three of a Kind" ∧ dEval.key.length = 3) ∨
      (dEval.category = 5 ∧ dEval.name = "Straight" ∧ dEval.key.length = 5) ∨
      (dEval.category = 6 ∧ dEval.name = "Flush" ∧ dEval.key.length = 5) ∨
      (dEval.category = 7 ∧ dEval.name = "Full House" ∧ dEval.key.length = 2) ∨
      (dEval.category = 8 ∧ dEval.name = "Four of a Kind" ∧ dEval.key.length = 2) ∨
      (dEval.category = 9 ∧ dEval.name = "Straight Flush" ∧ dEval.key.length = 5) ∨
      (dEval.category = 10 ∧ dEval.name = "Royal Flush" ∧ dEval.key.length = 5))
    (hcat : pEval.category = dEval.category) :
    pEval.name = dEval.name ∧ pEval.key.length = dEval.key.length := by
  rcases hP with ⟨c1, n1, l1⟩ | ⟨c1, n1, l1⟩ | ⟨c1, n1, l1⟩ | ⟨c1, n1, l1⟩ | ⟨c1, n1, l1⟩ |
    ⟨c1, n1, l1⟩ | ⟨c1, n1, l1⟩ | ⟨c1, n1, l1⟩ | ⟨c1, n1, l1⟩ | ⟨c1, n1, l1⟩ <;>
  rcases hD with ⟨c2, n2, l2⟩ | ⟨c2, n2, l2⟩ | ⟨c2, n2, l2⟩ | ⟨c2, n2, l2⟩ | ⟨c2, n2, l2⟩ |
    ⟨c2, n2, l2⟩ | ⟨c2, n2, l2⟩ | ⟨c2, n2, l2⟩ | ⟨c2, n2, l2⟩ | ⟨c2, n2, l2⟩ <;>
  first
    | exact ⟨n1.trans n2.symm, l1.trans l2.symm⟩
    | (exfalso; omega)

/-- C3: for two five-card hands with valid ranks to which `evaluate` gives the same
category, the two names are equal, the two keys have the same length and only defined
entries, and `compareHands` compares the keys lexicographically: at the first index
where the keys differ the result is `"win"` when the player's entry is larger and
`"lose"` when it is smaller; the result is `"tie"` exactly when the keys are equal;
the name reported is always the shared category name. -/
theorem compareHands_same_category (player dealer : List Card)
    (hp : player.length = 5) (hd : dealer.length = 5)
    (vp : validRanks player) (vd : validRanks dealer)
    (pEval dEval : Evaluation) (hpe : evaluate player = some pEval)
    (hde : evaluate dealer = some dEval) (hcat : pEval.category = dEval.category) :
    pEval.name = dEval.name ∧ pEval.key.length = dEval.key.length ∧
    (∀ k ∈ pEval.key ++ dEval.key, ∃ n : Int, k = some n) ∧
    (∀ (i : Nat) (x y : Int), (∀ j, j < i → pEval.key.get? j = dEval.key.get? j) →
      pEval.key.get? i = some (some x) → dEval.key.get? i = some (some y) →
      (y < x → compareHands player dealer = some ("win", pEval.name)) ∧
      (x < y → compareHands player dealer = some ("lose", pEval.name))) ∧
    (compareHands player dealer = some ("tie", pEval.name) ↔ pEval.key = dEval.key) ∧
    (∃ verdict, compareHands player dealer = some (verdict, pEval.name)) := by
  obtain ⟨_, a, b, c, d, e, _, h1, h2, h3, h4, hlo, hhi, _, hpe'⟩ := evaluate_five_valid hp vp
  obtain ⟨_, a', b', c', d', e', _, h1', h2', h3', h4', hlo', hhi', _, hde'⟩ :=
    evaluate_five_valid hd vd
  rw [hpe] at hpe'
  rw [hde] at hde'
  simp only [Option.some.injEq] at hpe' hde'
  obtain ⟨hkP, hsP⟩ :=
    classify_five_wellformed a b c d e h1 h2 h3 h4 hlo hhi _ pEval hpe'.symm
  obtain ⟨hkD, hsD⟩ :=
    classify_five_wellformed a' b' c' d' e' h1' h2' h3' h4' hlo' hhi' _ dEval hde'.symm
  obtain ⟨hname, hlen⟩ := same_category_same_shape pEval dEval hsP hsD hcat
  have hcmp : compareHands player dealer =
      some (compareKeys pEval.name pEval.name pEval.key dEval.key) := by
    simp only [compareHands, hpe, hde, gt_iff_lt, hcat, lt_self_iff_false, if_false, hname]
  have hPdef : ∀ k ∈ pEval.key, k ≠ none := by
    intro k hk
    obtain ⟨n, hn, _⟩ := hkP k hk
    simp [hn]
  have hDdef : ∀ k ∈ dEval.key, k ≠ none := by
    intro k hk
    obtain ⟨n, hn, _⟩ := hkD k hk
    simp [hn]
  refine ⟨hname, hlen, ?_, ?_, ?_, ?_⟩
  · intro k hk
    rcases List.mem_append.mp hk with hk | hk
    · obtain ⟨n, hn, _⟩ := hkP k hk
      exact ⟨n, hn⟩
    · obtain ⟨n, hn, _⟩ := hkD k hk
      exact ⟨n, hn⟩
  · intro i x y hsame hx hy
    have h := compareKeys_first_diff pEval.name pEval.name pEval.key dEval.key i x y hsame hx hy
    rw [hcmp]
    exact ⟨fun hlt => congrArg some (h.1 hlt), fun hlt => congrArg some (h.2 hlt)⟩
  · have hiff := compareKeys_tie_iff pEval.name pEval.name pEval.key dEval.key hlen hPdef hDdef
    have hnm := compareKeys_name pEval.name pEval.key dEval.key
    rw [hcmp, ← hiff, Option.some.injEq]
    constructor
    · intro h
      rw [h]
    · intro h
      exact Prod.ext h hnm
  · rw [hcmp]
    exact ⟨_, congrArg some (Prod.ext rfl (compareKeys_name pEval.name pEval.key dEval.key))⟩

/-- Witness for C3: two One Pair hands with keys `[10, 9, 7, 4]` and `[10, 9, 7, 3]`;
the keys first differ at index 3 and the player wins. -/
theorem compareHands_same_category_witness :
    validRanks [⟨"♠", "10"⟩, ⟨"♥", "10"⟩, ⟨"♦", "9"⟩, ⟨"♣", "7"⟩, ⟨"♠", "4"⟩] ∧
    validRanks [⟨"♦", "10"⟩, ⟨"♣", "10"⟩, ⟨"♠", "9"⟩, ⟨"♥", "7"⟩, ⟨"♠", "3"⟩] ∧
    evaluate [⟨"♠", "10"⟩, ⟨"♥", "10"⟩, ⟨"♦", "9"⟩, ⟨"♣", "7"⟩, ⟨"♠", "4"⟩] =
      some ⟨2, [some 10, some 9, some 7, some 4], "One Pair"⟩ ∧
    evaluate [⟨"♦", "10"⟩, ⟨"♣", "10"⟩, ⟨"♠", "9"⟩, ⟨"♥", "7"⟩, ⟨"♠", "3"⟩] =
      some ⟨2, [some 10, some 9, some 7, some 3], "One Pair"⟩ ∧
    compareHands [⟨"♠", "10"⟩, ⟨"♥", "10"⟩, ⟨"♦", "9"⟩, ⟨"♣", "7"⟩, ⟨"♠", "4"⟩]
      [⟨"♦", "10"⟩, ⟨"♣", "10"⟩, ⟨"♠", "9"⟩, ⟨"♥", "7"⟩, ⟨"♠", "3"⟩] =
        some ("win", "One Pair") := by
  refine ⟨by decide, by decide, by decide, by decide, ?_⟩
  have h := compareHands_same_category
    [⟨"♠", "10"⟩, ⟨"♥", "10"⟩, ⟨"♦", "9"⟩, ⟨"♣", "7"⟩, ⟨"♠", "4"⟩]
    [⟨"♦", "10"⟩, ⟨"♣", "10"⟩, ⟨"♠", "9"⟩, ⟨"♥", "7"⟩, ⟨"♠", "3"⟩]
    rfl rfl (by decide) (by decide)
    ⟨2, [some 10, some 9, some 7, some 4], "One Pair"⟩
    ⟨2, [some 10, some 9, some 7, some 3], "One Pair"⟩ (by decide) (by decide) rfl
  exact (h.2.2.2.1 3 4 3 (by decide) rfl rfl).1 (by decide)

/-- C4: on every hand of exactly five cards with ranks among `2..10, J, Q, K, A`,
`evaluate` returns a triple `[c, key, name]` where `c` is one of `1..10`, `name` is the
name paired with `c`, every entry of `key` is a defined integer in `[2, 14]`, and the
length of `key` is 5 for `c` in `1, 5, 6, 9, 10`, 4 for `c = 2`, 3 for `c` in `3, 4`
and 2 for `c` in `7, 8`. -/
theorem evaluate_total_wellformed (hand : List Card) (hlen : hand.length = 5)
    (hv : validRanks hand) :
    ∃ ev : Evaluation, evaluate hand = some ev ∧
      (∀ k ∈ ev.key, ∃ n : Int, k = some n ∧ 2 ≤ n ∧ n ≤ 14) ∧
      ((ev.category = 1 ∧ ev.name = "High Card" ∧ ev.key.length = 5) ∨
        (ev.category = 2 ∧ ev.name = "One Pair" ∧ ev.key.length = 4) ∨
        (ev.category = 3 ∧ ev.name = "Two Pair" ∧ ev.key.length = 3) ∨
        (ev.category = 4 ∧ ev.name = "Three of a Kind" ∧ ev.key.length = 3) ∨
        (ev.category = 5 ∧ ev.name = "Straight" ∧ ev.key.length = 5) ∨
        (ev.category = 6 ∧ ev.name = "Flush" ∧ ev.key.length = 5) ∨
        (ev.category = 7 ∧ ev.name = "Full House" ∧ ev.key.length = 2) ∨
        (ev.category = 8 ∧ ev.name = "Four of a Kind" ∧ ev.key.length = 2) ∨
        (ev.category = 9 ∧ ev.name = "Straight Flush" ∧ ev.key.length = 5) ∨
        (ev.category = 10 ∧ ev.name = "Royal Flush" ∧ ev.key.length = 5)) := by
  obtain ⟨_, a, b, c, d, e, _, h1, h2, h3, h4, hlo, hhi, _, hev⟩ := evaluate_five_valid hlen hv
  obtain ⟨hk, hs⟩ := classify_five_wellformed a b c d e h1 h2 h3 h4 hlo hhi _ _ rfl
  exact ⟨_, hev, hk, hs⟩

/-- Witness for C4: the hand 6♠ 6♥ 7♦ 4♣ 2♠ is One Pair with a key of length 4. -/
theorem evaluate_total_wellformed_witness :
    validRanks [⟨"♠", "6"⟩, ⟨"♥", "6"⟩, ⟨"♦", "7"⟩, ⟨"♣", "4"⟩, ⟨"♠", "2"⟩] ∧
    evaluate [⟨"♠", "6"⟩, ⟨"♥", "6"⟩, ⟨"♦", "7"⟩, ⟨"♣", "4"⟩, ⟨"♠", "2"⟩] =
      some ⟨2, [some 6, some 7, some 4, some 2], "One Pair"⟩ ∧
    ∃ ev : Evaluation,
      evaluate [⟨"♠", "6"⟩, ⟨"♥", "6"⟩, ⟨"♦", "7"⟩, ⟨"♣", "4"⟩, ⟨"♠", "2"⟩] = some ev ∧
      (∀ k ∈ ev.key, ∃ n : Int, k = some n ∧ 2 ≤ n ∧ n ≤ 14) ∧
      ((ev.category = 1 ∧ ev.name = "High Card" ∧ ev.key.length = 5) ∨
        (ev.category = 2 ∧ ev.name = "One Pair" ∧ ev.key.length = 4) ∨
        (ev.category = 3 ∧ ev.name = "Two Pair" ∧ ev.key.length = 3) ∨
        (ev.category = 4 ∧ ev.name = "Three of a Kind" ∧ ev.key.length = 3) ∨
        (ev.category = 5 ∧ ev.name = "Straight" ∧ ev.key.length = 5) ∨
        (ev.category = 6 ∧ ev.name = "Flush" ∧ ev.key.length = 5) ∨
        (ev.category = 7 ∧ ev.name = "Full House" ∧ ev.key.length = 2) ∨
        (ev.category = 8 ∧ ev.name = "Four of a Kind" ∧ ev.key.length = 2) ∨
        (ev.category = 9 ∧ ev.name = "Straight Flush" ∧ ev.key.length = 5) ∨
        (ev.category = 10 ∧ ev.name = "Royal Flush" ∧ ev.key.length = 5)) :=
  ⟨by decide, by decide,
    evaluate_total_wellformed
      [⟨"♠", "6"⟩, ⟨"♥", "6"⟩, ⟨"♦", "7"⟩, ⟨"♣", "4"⟩, ⟨"♠", "2"⟩] rfl (by decide)⟩

/-! ## Claims about the individual categories -/

/-- A descending run of five consecutive integers is a rearrangement of the ascending run. -/
theorem perm_run_of_desc {a b c d e : Int} (h1 : d = e + 1) (h2 : c = d + 1) (h3 : b = c + 1)
    (h4 : a = b + 1) : [a, b, c, d, e].Perm [e, e + 1, e + 2, e + 3, e + 4] := by
  have ha : a = e + 4 := by omega
  have hb : b = e + 3 := by omega
  have hc : c = e + 2 := by omega
  subst ha hb hc h1
  have h : [e + 4, e + 3, e + 2, e + 1, e] = [e, e + 1, e + 2, e + 3, e + 4].reverse := rfl
  rw [h]
  exact List.reverse_perm _

/-- The descending sort of a rearrangement of five consecutive integers. -/
theorem sortDesc_run {nums : List Int} {x : Int}
    (h : nums.Perm [x, x + 1, x + 2, x + 3, x + 4]) :
    sortDesc nums = [x + 4, x + 3, x + 2, x + 1, x] := by
  apply sortDesc_eq_of_perm_sorted
  · have hr : [x + 4, x + 3, x + 2, x + 1, x] = [x, x + 1, x + 2, x + 3, x + 4].reverse := rfl
    rw [hr]
    exact h.trans (List.reverse_perm _).symm
  · exact sorted_desc_five (by omega) (by omega) (by omega) (by omega)

/-- C5: a five-card hand whose cards all share one suit and whose numeric ranks are
five consecutive integers `x, ..., x + 4` evaluates to category 10 "Royal Flush" when
`x = 10` and to category 9 "Straight Flush" otherwise, with the five ranks in descending
order as key; conversely a five-card hand evaluated to category 10 or 9 has one suit
and five consecutive ranks. -/
theorem evaluate_straight_flush (hand : List Card) (nums : List Int) (hlen : hand.length = 5)
    (hnum : numericValues hand = some nums) :
    (∀ (s : String) (x : Int), (∀ c ∈ hand, c.suit = s) →
      nums.Perm [x, x + 1, x + 2, x + 3, x + 4] →
      evaluate hand = some
        (if x = 10 then ⟨10, [some 14, some 13, some 12, some 11, some 10], "Royal Flush"⟩
         else ⟨9, [some (x + 4), some (x + 3), some (x + 2), some (x + 1), some x],
          "Straight Flush"⟩)) ∧
    (∀ ev : Evaluation, evaluate hand = some ev → ev.category = 10 ∨ ev.category = 9 →
      (∃ s, ∀ c ∈ hand, c.suit = s) ∧ ∃ x : Int, nums.Perm [x, x + 1, x + 2, x + 3, x + 4]) := by
  constructor
  · intro s x hs hx
    have hf : isFlush (hand.map Card.suit) = true := (isFlush_iff hand).mpr ⟨s, hs⟩
    rw [evaluate_eq hnum, sortDesc_run hx,
      classify_abcde _ _ _ _ _ (by omega) (by omega) (by omega) (by omega)]
    by_cases h10 : x = 10
    · subst h10
      simp [hf]
    · have hroyal : ¬ (isFlush (hand.map Card.suit) = true ∧
          x = 10 ∧ x + 1 = 11 ∧ x + 2 = 12 ∧ x + 3 = 13 ∧ x + 4 = 14) :=
        fun h => h10 h.2.1
      have hrun : isFlush (hand.map Card.suit) = true ∧
          x + 1 = x + 1 ∧ x + 2 = x + 1 + 1 ∧ x + 3 = x + 2 + 1 ∧ x + 4 = x + 3 + 1 :=
        ⟨hf, by omega, by omega, by omega, by omega⟩
      rw [if_neg hroyal, if_pos hrun, if_neg h10]
  · intro ev hev hcat
    obtain ⟨a, b, c, d, e, h1, h2, h3, h4, hperm, _, hev'⟩ := evaluate_five hlen hnum
    rw [hev] at hev'
    simp only [Option.some.injEq] at hev'
    subst hev'
    rcases classify_five_cases a b c d e h1 h2 h3 h4 (hand.map Card.suit) with
      ⟨_, _, _, _, hc⟩ | ⟨_, _, _, _, hc⟩ | ⟨_, _, _, _, hc⟩ | ⟨_, _, _, _, hc⟩ |
      ⟨_, _, _, _, hc⟩ | ⟨_, _, _, _, hc⟩ | ⟨_, _, _, _, hc⟩ | ⟨_, _, _, _, hc⟩ |
      ⟨_, _, _, _, hc⟩ | ⟨_, _, _, _, hc⟩ | ⟨_, _, _, _, hc⟩ | ⟨_, _, _, _, hc⟩ |
      ⟨_, _, _, _, hc⟩ | ⟨_, _, _, _, hc⟩ | ⟨_, _, _, _, hc⟩ | ⟨_, _, _, _, hc⟩
    all_goals rw [hc] at hcat
    all_goals
      first
        | (split_ifs at hcat with hr hs hf hst
           · exact ⟨(isFlush_iff hand).mp hr.1, e, hperm.trans
              (perm_run_of_desc (by omega) (by omega) (by omega) (by omega))⟩
           · exact ⟨(isFlush_iff hand).mp hs.1, e, hperm.trans
              (perm_run_of_desc hs.2.1 hs.2.2.1 hs.2.2.2.1 hs.2.2.2.2)⟩
           all_goals simp at hcat)
        | (split_ifs at hcat <;> simp at hcat)
        | simp at hcat

/-- Witness for C5: 10♠ J♠ Q♠ K♠ A♠ is a Royal Flush with key `[14, 13, 12, 11, 10]`. -/
theorem evaluate_straight_flush_witness :
    evaluate [⟨"♠", "10"⟩, ⟨"♠", "J"⟩, ⟨"♠", "Q"⟩, ⟨"♠", "K"⟩, ⟨"♠", "A"⟩] =
      some ⟨10, [some 14, some 13, some 12, some 11, some 10], "Royal Flush"⟩ :=
  (evaluate_straight_flush [⟨"♠", "10"⟩, ⟨"♠", "J"⟩, ⟨"♠", "Q"⟩, ⟨"♠", "K"⟩, ⟨"♠", "A"⟩]
    [10, 11, 12, 13, 14] rfl rfl).1 "♠" 10 (by decide) (by decide)

/-- C6: a five-card hand in which four cards have the numeric rank `r` and the fifth
has a different rank `k` evaluates to `[8, [r, k], "Four of a Kind"]`; conversely a
five-card hand evaluated to category 8 has four cards of one rank and a fifth card of
another rank. -/
theorem evaluate_four_of_a_kind (hand : List Card) (nums : List Int) (hlen : hand.length = 5)
    (hnum : numericValues hand = some nums) :
    (∀ r k : Int, r ≠ k → nums.Perm [r, r, r, r, k] →
      evaluate hand = some ⟨8, [some r, some k], "Four of a Kind"⟩) ∧
    (∀ ev : Evaluation, evaluate hand = some ev → ev.category = 8 →
      ∃ r k : Int, r ≠ k ∧ nums.Perm [r, r, r, r, k]) := by
  constructor
  · intro r k hrk hperm
    rw [evaluate_eq hnum]
    rcases lt_or_gt_of_ne hrk with h | h
    · have hs : sortDesc nums = [k, r, r, r, r] :=
        sortDesc_eq_of_perm_sorted (hperm.trans (@List.perm_append_comm _ [r, r, r, r] [k]))
          (sorted_desc_five h.le le_rfl le_rfl le_rfl)
      rw [hs, classify_abbbb k r h]
    · have hs : sortDesc nums = [r, r, r, r, k] :=
        sortDesc_eq_of_perm_sorted hperm (sorted_desc_five le_rfl le_rfl le_rfl h.le)
      rw [hs, classify_aaaab r k h]
  · intro ev hev hcat
    obtain ⟨a, b, c, d, e, h1, h2, h3, h4, hperm, _, hev'⟩ := evaluate_five hlen hnum
    rw [hev] at hev'
    simp only [Option.some.injEq] at hev'
    subst hev'
    rcases classify_five_cases a b c d e h1 h2 h3 h4 (hand.map Card.suit) with
      ⟨e1, e2, e3, e4, hc⟩ | ⟨e1, e2, e3, e4, hc⟩ | ⟨e1, e2, e3, e4, hc⟩ |
      ⟨e1, e2, e3, e4, hc⟩ | ⟨e1, e2, e3, e4, hc⟩ | ⟨e1, e2, e3, e4, hc⟩ |
      ⟨e1, e2, e3, e4, hc⟩ | ⟨e1, e2, e3, e4, hc⟩ | ⟨e1, e2, e3, e4, hc⟩ |
      ⟨e1, e2, e3, e4, hc⟩ | ⟨e1, e2, e3, e4, hc⟩ | ⟨e1, e2, e3, e4, hc⟩ |
      ⟨e1, e2, e3, e4, hc⟩ | ⟨e1, e2, e3, e4, hc⟩ | ⟨e1, e2, e3, e4, hc⟩ |
      ⟨e1, e2, e3, e4, hc⟩
    all_goals rw [hc] at hcat
    all_goals
      first
        | (split_ifs at hcat <;> simp at hcat)
        | (refine ⟨a, e, by omega, ?_⟩
           subst e1 e2 e3
           exact hperm)
        | (refine ⟨b, a, by omega, ?_⟩
           subst e2 e3 e4
           exact hperm.trans (@List.perm_append_comm _ [_] [_, _, _, _]))
        | simp at hcat

/-- Witness for C6: 2♠ 2♥ 2♦ 2♣ 5♠ is Four of a Kind with key `[2, 5]`. -/
theorem evaluate_four_of_a_kind_witness :
    evaluate [⟨"♠", "2"⟩, ⟨"♥", "2"⟩, ⟨"♦", "2"⟩, ⟨"♣", "2"⟩, ⟨"♠", "5"⟩] =
      some ⟨8, [some 2, some 5], "Four of a Kind"⟩ :=
  (evaluate_four_of_a_kind [⟨"♠", "2"⟩, ⟨"♥", "2"⟩, ⟨"♦", "2"⟩, ⟨"♣", "2"⟩, ⟨"♠", "5"⟩]
    [2, 2, 2, 2, 5] rfl rfl).1 2 5 (by decide) (by decide)

/-- C7: a five-card hand in which three cards have the numeric rank `t` and the other
two share a different rank `p` evaluates to `[7, [t, p], "Full House"]`, the rank of
the triple first whether or not `p` is larger; conversely a five-card hand evaluated to
category 7 has three cards of one rank and two cards of another rank. -/
theorem evaluate_full_house (hand : List Card) (nums : List Int) (hlen : hand.length = 5)
    (hnum : numericValues hand = some nums) :
    (∀ t p : Int, t ≠ p → nums.Perm [t, t, t, p, p] →
      evaluate hand = some ⟨7, [some t, some p], "Full House"⟩) ∧
    (∀ ev : Evaluation, evaluate hand = some ev → ev.category = 7 →
      ∃ t p : Int, t ≠ p ∧ nums.Perm [t, t, t, p, p]) := by
  constructor
  · intro t p htp hperm
    rw [evaluate_eq hnum]
    rcases lt_or_gt_of_ne htp with h | h
    · have hs : sortDesc nums = [p, p, t, t, t] :=
        sortDesc_eq_of_perm_sorted (hperm.trans (@List.perm_append_comm _ [t, t, t] [p, p]))
          (sorted_desc_five le_rfl h.le le_rfl le_rfl)
      rw [hs, classify_aabbb p t h]
    · have hs : sortDesc nums = [t, t, t, p, p] :=
        sortDesc_eq_of_perm_sorted hperm (sorted_desc_five le_rfl le_rfl h.le le_rfl)
      rw [hs, classify_aaabb t p h]
  · intro ev hev hcat
    obtain ⟨a, b, c, d, e, h1, h2, h3, h4, hperm, _, hev'⟩ := evaluate_five hlen hnum
    rw [hev] at hev'
    simp only [Option.some.injEq] at hev'
    subst hev'
    rcases classify_five_cases a b c d e h1 h2 h3 h4 (hand.map Card.suit) with
      ⟨e1, e2, e3, e4, hc⟩ | ⟨e1, e2, e3, e4, hc⟩ | ⟨e1, e2, e3, e4, hc⟩ |
      ⟨e1, e2, e3, e4, hc⟩ | ⟨e1, e2, e3, e4, hc⟩ | ⟨e1, e2, e3, e4, hc⟩ |
      ⟨e1, e2, e3, e4, hc⟩ | ⟨e1, e2, e3, e4, hc⟩ | ⟨e1, e2, e3, e4, hc⟩ |
      ⟨e1, e2, e3, e4, hc⟩ | ⟨e1, e2, e3, e4, hc⟩ | ⟨e1, e2, e3, e4, hc⟩ |
      ⟨e1, e2, e3, e4, hc⟩ | ⟨e1, e2, e3, e4, hc⟩ | ⟨e1, e2, e3, e4, hc⟩ |
      ⟨e1, e2, e3, e4, hc⟩
    all_goals rw [hc] at hcat
    all_goals
      first
        | (split_ifs at hcat <;> simp at hcat)
        | (refine ⟨a, e, by omega, ?_⟩
           subst e1 e2 e4
           exact hperm)
        | (refine ⟨e, a, by omega, ?_⟩
           subst e1 e3 e4
           exact hperm.trans (@List.perm_append_comm _ [_, _] [_, _, _]))
        | simp at hcat

/-- Witness for C7: 3♠ 3♥ 3♦ 9♠ 9♥ is a Full House with key `[3, 9]`, the rank of the
triple first although the pair is higher. -/
theorem evaluate_full_house_witness :
    evaluate [⟨"♠", "3"⟩, ⟨"♥", "3"⟩, ⟨"♦", "3"⟩, ⟨"♠", "9"⟩, ⟨"♥", "9"⟩] =
      some ⟨7, [some 3, some 9], "Full House"⟩ :=
  (evaluate_full_house [⟨"♠", "3"⟩, ⟨"♥", "3"⟩, ⟨"♦", "3"⟩, ⟨"♠", "9"⟩, ⟨"♥", "9"⟩]
    [3, 3, 3, 9, 9] rfl rfl).1 3 9 (by decide) (by decide)

/-- The numeric value of a card does not depend on its suit. -/
theorem getNumericValue_suit (s v : String) :
    (Card.mk s v).getNumericValue = (Card.mk "" v).getNumericValue := rfl

/-- On the thirteen faces of the deck the numeric value determines the face. -/
theorem getNumericValue_inj_of_valid (c₁ c₂ : Card) (h₁ : c₁.value ∈ Deck.values)
    (h₂ : c₂.value ∈ Deck.values) (h : c₁.getNumericValue = c₂.getNumericValue) :
    c₁.value = c₂.value := by
  obtain ⟨s₁, v₁⟩ := c₁
  obtain ⟨s₂, v₂⟩ := c₂
  rw [getNumericValue_suit s₁, getNumericValue_suit s₂] at h
  simp only [Deck.values, List.mem_cons, List.mem_singleton, List.not_mem_nil, or_false]
    at h₁ h₂
  rcases h₁ with h₁ | h₁ | h₁ | h₁ | h₁ | h₁ | h₁ | h₁ | h₁ | h₁ | h₁ | h₁ | h₁ <;>
  rcases h₂ with h₂ | h₂ | h₂ | h₂ | h₂ | h₂ | h₂ | h₂ | h₂ | h₂ | h₂ | h₂ | h₂ <;>
  subst h₁ h₂ <;>
  first
    | rfl
    | exact absurd h (by decide)

/-- The numeric values of pairwise distinct cards of one suit with valid ranks are
pairwise distinct. -/
theorem numericValues_nodup {hand : List Card} {nums : List Int} {s : String}
    (hnum : numericValues hand = some nums) (hv : validRanks hand)
    (hs : ∀ c ∈ hand, c.suit = s) (hd : hand.Nodup) :
    nums.Nodup ∧ ∀ n ∈ nums, ∃ c ∈ hand, c.getNumericValue = some n := by
  induction hand generalizing nums with
  | nil =>
    simp only [numericValues, Option.some.injEq] at hnum
    subst hnum
    simp
  | cons c cs ih =>
    obtain ⟨n, ns, hn, hns, rfl⟩ := numericValues_cons_eq_some hnum
    obtain ⟨hnd, hmem⟩ := ih hns (fun x hx => hv x (List.mem_cons_of_mem _ hx))
      (fun x hx => hs x (List.mem_cons_of_mem _ hx)) (List.nodup_cons.mp hd).2
    constructor
    · refine List.nodup_cons.mpr ⟨?_, hnd⟩
      intro hin
      obtain ⟨c', hc', hn'⟩ := hmem n hin
      have hval : c'.value = c.value :=
        getNumericValue_inj_of_valid c' c (hv c' (List.mem_cons_of_mem _ hc'))
          (hv c (List.mem_cons_self _ _)) (hn'.trans hn.symm)
      have hsuit : c'.suit = c.suit :=
        (hs c' (List.mem_cons_of_mem _ hc')).trans (hs c (List.mem_cons_self _ _)).symm
      have hcc : c' = c := by
        cases c'
        cases c
        simp only [Card.mk.injEq]
        exact ⟨hsuit, hval⟩
      exact (List.nodup_cons.mp hd).1 (hcc ▸ hc')
    · intro m hm
      rcases List.mem_cons.mp hm with rfl | hm
      · exact ⟨c, List.mem_cons_self _ _, hn⟩
      · obtain ⟨c', hc', hn'⟩ := hmem m hm
        exact ⟨c', List.mem_cons_of_mem _ hc', hn'⟩

/-- Five pairwise distinct numbers in descending order are in strictly descending order. -/
theorem strict_of_nodup_five {a b c d e : Int} (h1 : b ≤ a) (h2 : c ≤ b) (h3 : d ≤ c)
    (h4 : e ≤ d) (hnd : [a, b, c, d, e].Nodup) : b < a ∧ c < b ∧ d < c ∧ e < d := by
  simp only [List.nodup_cons, List.mem_cons, List.mem_singleton, List.not_mem_nil, or_false,
    not_or, not_false_eq_true, List.nodup_nil, and_true] at hnd
  omega

/-- C8: a hand of five pairwise distinct cards with valid ranks that all share one
suit and whose numeric ranks are not five consecutive integers evaluates to
`[6, ranks in descending order, "Flush"]`; conversely, a hand of five pairwise distinct
cards evaluated to category 6 has one suit and ranks that are not five consecutive
integers. -/
theorem evaluate_flush (hand : List Card) (nums : List Int) (hlen : hand.length = 5)
    (hv : validRanks hand) (hd : hand.Nodup) (hnum : numericValues hand = some nums) :
    ((∃ s, ∀ c ∈ hand, c.suit = s) →
      (¬ ∃ x : Int, nums.Perm [x, x + 1, x + 2, x + 3, x + 4]) →
      ∃ a b c d e : Int, b < a ∧ c < b ∧ d < c ∧ e < d ∧ nums.Perm [a, b, c, d, e] ∧
        evaluate hand = some ⟨6, [some a, some b, some c, some d, some e], "Flush"⟩) ∧
    (∀ ev : Evaluation, evaluate hand = some ev → ev.category = 6 →
      (∃ s, ∀ c ∈ hand, c.suit = s) ∧
      ¬ ∃ x : Int, nums.Perm [x, x + 1, x + 2, x + 3, x + 4]) := by
  obtain ⟨a, b, c, d, e, h1, h2, h3, h4, hperm, hsd, hev⟩ := evaluate_five hlen hnum
  constructor
  · rintro ⟨s, hs⟩ hnr
    have hf : isFlush (hand.map Card.suit) = true := (isFlush_iff hand).mpr ⟨s, hs⟩
    have hnd : [a, b, c, d, e].Nodup :=
      hperm.nodup_iff.mp (numericValues_nodup hnum hv hs hd).1
    obtain ⟨l1, l2, l3, l4⟩ := strict_of_nodup_five h1 h2 h3 h4 hnd
    have hroyal : ¬ (isFlush (hand.map Card.suit) = true ∧
        e = 10 ∧ d = 11 ∧ c = 12 ∧ b = 13 ∧ a = 14) := fun h =>
      hnr ⟨e, hperm.trans (perm_run_of_desc (by omega) (by omega) (by omega) (by omega))⟩
    have hrun : ¬ (isFlush (hand.map Card.suit) = true ∧
        d = e + 1 ∧ c = d + 1 ∧ b = c + 1 ∧ a = b + 1) := fun h =>
      hnr ⟨e, hperm.trans (perm_run_of_desc h.2.1 h.2.2.1 h.2.2.2.1 h.2.2.2.2)⟩
    rw [classify_abcde a b c d e l1 l2 l3 l4, if_neg hroyal, if_neg hrun, if_pos hf] at hev
    exact ⟨a, b, c, d, e, l1, l2, l3, l4, hperm, hev⟩
  · intro ev hev' hcat
    rw [hev'] at hev
    simp only [Option.some.injEq] at hev
    subst hev
    by_cases hf : isFlush (hand.map Card.suit) = true
    · obtain ⟨s, hs⟩ := (isFlush_iff hand).mp hf
      refine ⟨⟨s, hs⟩, ?_⟩
      rintro ⟨x, hx⟩
      have hnd : [a, b, c, d, e].Nodup :=
        hperm.nodup_iff.mp (numericValues_nodup hnum hv hs hd).1
      obtain ⟨l1, l2, l3, l4⟩ := strict_of_nodup_five h1 h2 h3 h4 hnd
      rw [sortDesc_run hx] at hsd
      simp only [List.cons.injEq, and_true] at hsd
      obtain ⟨ha, hb, hc, hd', he⟩ := hsd
      rw [classify_abcde a b c d e l1 l2 l3 l4] at hcat
      split_ifs at hcat with hr hs'
      · simp at hcat
      · simp at hcat
      · exact hs' ⟨hf, by omega, by omega, by omega, by omega⟩
    · exfalso
      rcases classify_five_cases a b c d e h1 h2 h3 h4 (hand.map Card.suit) with
        ⟨_, _, _, _, hc⟩ | ⟨_, _, _, _, hc⟩ | ⟨_, _, _, _, hc⟩ | ⟨_, _, _, _, hc⟩ |
        ⟨_, _, _, _, hc⟩ | ⟨_, _, _, _, hc⟩ | ⟨_, _, _, _, hc⟩ | ⟨_, _, _, _, hc⟩ |
        ⟨_, _, _, _, hc⟩ | ⟨_, _, _, _, hc⟩ | ⟨_, _, _, _, hc⟩ | ⟨_, _, _, _, hc⟩ |
        ⟨_, _, _, _, hc⟩ | ⟨_, _, _, _, hc⟩ | ⟨_, _, _, _, hc⟩ | ⟨_, _, _, _, hc⟩
      all_goals rw [hc] at hcat
      all_goals
        first
          | (split_ifs at hcat <;> simp at hcat)
          | simp at hcat

/-- Witness for C8: 2♥ 5♥ 9♥ J♥ K♥ is a Flush with key `[13, 11, 9, 5, 2]`. -/
theorem evaluate_flush_witness :
    ∃ a b c d e : Int, b < a ∧ c < b ∧ d < c ∧ e < d ∧
      [(2 : Int), 5, 9, 11, 13].Perm [a, b, c, d, e] ∧
      evaluate [⟨"♥", "2"⟩, ⟨"♥", "5"⟩, ⟨"♥", "9"⟩, ⟨"♥", "J"⟩, ⟨"♥", "K"⟩] =
        some ⟨6, [some a, some b, some c, some d, some e], "Flush"⟩ :=
  (evaluate_flush [⟨"♥", "2"⟩, ⟨"♥", "5"⟩, ⟨"♥", "9"⟩, ⟨"♥", "J"⟩, ⟨"♥", "K"⟩]
    [2, 5, 9, 11, 13] rfl (by decide) (by decide) rfl).1 ⟨"♥", by decide⟩
    (by
      rintro ⟨x, hx⟩
      have h2 : (2 : Int) ∈ [x, x + 1, x + 2, x + 3, x + 4] := hx.mem_iff.mp (by simp)
      have h13 : (13 : Int) ∈ [x, x + 1, x + 2, x + 3, x + 4] := hx.mem_iff.mp (by simp)
      simp only [List.mem_cons, List.mem_singleton, List.not_mem_nil, or_false] at h2 h13
      omega)

/-- Five consecutive integers are pairwise distinct, and so is any rearrangement. -/
theorem nodup_of_perm_run {nums : List Int} {x : Int}
    (h : nums.Perm [x, x + 1, x + 2, x + 3, x + 4]) : nums.Nodup := by
  apply h.nodup_iff.mpr
  simp only [List.nodup_cons, List.mem_cons, List.mem_singleton, List.not_mem_nil, or_false,
    not_or, not_false_eq_true, List.nodup_nil, and_true]
  omega

/-- The test of line 94, as run by `evaluate` on five cards, holds exactly when the
ranks are five consecutive integers. -/
theorem isStraight_iff_run (nums : List Int) (hlen : nums.length = 5) :
    isStraight (sortAsc (sortDesc nums)) = true ↔
      ∃ x : Int, nums.Perm [x, x + 1, x + 2, x + 3, x + 4] := by
  obtain ⟨a, b, c, d, e, hsd, h1, h2, h3, h4, hperm⟩ := sortDesc_five nums hlen
  rw [hsd, sortAsc_eq_reverse (sorted_desc_five h1 h2 h3 h4)]
  simp only [List.reverse_cons, List.reverse_nil, List.nil_append, List.cons_append,
    isStraight_five, decide_eq_true_eq]
  constructor
  · intro h
    exact ⟨e, hperm.trans (perm_run_of_desc h.1 h.2.1 h.2.2.1 h.2.2.2)⟩
  · rintro ⟨x, hx⟩
    rw [sortDesc_run hx] at hsd
    simp only [List.cons.injEq, and_true] at hsd
    omega

/-- C9: for a five-card hand whose cards do not all share one suit, `evaluate` returns
`[5, ranks in descending order, "Straight"]` exactly when the five numeric ranks are
pairwise distinct and form a run of five consecutive integers; and the test `isStraight`
of the code, run on the five sorted values with their duplicates, is equivalent to that
condition. -/
theorem evaluate_straight (hand : List Card) (nums : List Int) (hlen : hand.length = 5)
    (hnum : numericValues hand = some nums) (hmix : ¬ ∃ s, ∀ c ∈ hand, c.suit = s) :
    (∀ x : Int, nums.Perm [x, x + 1, x + 2, x + 3, x + 4] →
      nums.Nodup ∧
      evaluate hand = some
        ⟨5, [some (x + 4), some (x + 3), some (x + 2), some (x + 1), some x], "Straight"⟩) ∧
    (∀ ev : Evaluation, evaluate hand = some ev → ev.category = 5 →
      nums.Nodup ∧ ∃ x : Int, nums.Perm [x, x + 1, x + 2, x + 3, x + 4] ∧
        ev = ⟨5, [some (x + 4), some (x + 3), some (x + 2), some (x + 1), some x],
          "Straight"⟩) ∧
    (isStraight (sortAsc (sortDesc nums)) = true ↔
      nums.Nodup ∧ ∃ x : Int, nums.Perm [x, x + 1, x + 2, x + 3, x + 4]) := by
  have hf : ¬ isFlush (hand.map Card.suit) = true := fun h => hmix ((isFlush_iff hand).mp h)
  have hfwd : ∀ x : Int, nums.Perm [x, x + 1, x + 2, x + 3, x + 4] →
      evaluate hand = some
        ⟨5, [some (x + 4), some (x + 3), some (x + 2), some (x + 1), some x], "Straight"⟩ := by
    intro x hx
    have hroyal : ¬ (isFlush (hand.map Card.suit) = true ∧
        x = 10 ∧ x + 1 = 11 ∧ x + 2 = 12 ∧ x + 3 = 13 ∧ x + 4 = 14) := fun h => hf h.1
    have hsf : ¬ (isFlush (hand.map Card.suit) = true ∧
        x + 1 = x + 1 ∧ x + 2 = x + 1 + 1 ∧ x + 3 = x + 2 + 1 ∧ x + 4 = x + 3 + 1) :=
      fun h => hf h.1
    have hrun : x + 1 = x + 1 ∧ x + 2 = x + 1 + 1 ∧ x + 3 = x + 2 + 1 ∧ x + 4 = x + 3 + 1 :=
      ⟨by omega, by omega, by omega, by omega⟩
    rw [evaluate_eq hnum, sortDesc_run hx,
      classify_abcde _ _ _ _ _ (by omega) (by omega) (by omega) (by omega),
      if_neg hroyal, if_neg hsf, if_neg hf, if_pos hrun]
  refine ⟨fun x hx => ⟨nodup_of_perm_run hx, hfwd x hx⟩, ?_, ?_⟩
  · intro ev hev hcat
    have hrun : ∃ x : Int, nums.Perm [x, x + 1, x + 2, x + 3, x + 4] := by
      obtain ⟨a, b, c, d, e, h1, h2, h3, h4, hperm, _, hev'⟩ := evaluate_five hlen hnum
      rw [hev] at hev'
      simp only [Option.some.injEq] at hev'
      subst hev'
      rcases classify_five_cases a b c d e h1 h2 h3 h4 (hand.map Card.suit) with
        ⟨_, _, _, _, hc⟩ | ⟨_, _, _, _, hc⟩ | ⟨_, _, _, _, hc⟩ | ⟨_, _, _, _, hc⟩ |
        ⟨_, _, _, _, hc⟩ | ⟨_, _, _, _, hc⟩ | ⟨_, _, _, _, hc⟩ | ⟨_, _, _, _, hc⟩ |
        ⟨_, _, _, _, hc⟩ | ⟨_, _, _, _, hc⟩ | ⟨_, _, _, _, hc⟩ | ⟨_, _, _, _, hc⟩ |
        ⟨_, _, _, _, hc⟩ | ⟨_, _, _, _, hc⟩ | ⟨_, _, _, _, hc⟩ | ⟨_, _, _, _, hc⟩
      all_goals rw [hc] at hcat
      all_goals
        by_cases hst : d = e + 1 ∧ c = d + 1 ∧ b = c + 1 ∧ a = b + 1
        · exact ⟨e, hperm.trans (perm_run_of_desc hst.1 hst.2.1 hst.2.2.1 hst.2.2.2)⟩
        · exfalso
          first
            | (split_ifs at hcat <;> simp at hcat)
            | simp at hcat
    obtain ⟨x, hx⟩ := hrun
    refine ⟨nodup_of_perm_run hx, x, hx, ?_⟩
    have h := hfwd x hx
    rw [hev] at h
    exact Option.some.inj h
  · rw [isStraight_iff_run nums ((numericValues_length hnum).trans hlen)]
    constructor
    · rintro ⟨x, hx⟩
      exact ⟨nodup_of_perm_run hx, x, hx⟩
    · rintro ⟨_, h⟩
      exact h

/-- Witness for C9: 6♠ 5♥ 4♦ 3♣ 2♠ is a Straight with key `[6, 5, 4, 3, 2]`. -/
theorem evaluate_straight_witness :
    [(6 : Int), 5, 4, 3, 2].Nodup ∧
    evaluate [⟨"♠", "6"⟩, ⟨"♥", "5"⟩, ⟨"♦", "4"⟩, ⟨"♣", "3"⟩, ⟨"♠", "2"⟩] =
      some ⟨5, [some (2 + 4), some (2 + 3), some (2 + 2), some (2 + 1), some 2], "Straight"⟩ :=
  (evaluate_straight [⟨"♠", "6"⟩, ⟨"♥", "5"⟩, ⟨"♦", "4"⟩, ⟨"♣", "3"⟩, ⟨"♠", "2"⟩]
    [6, 5, 4, 3, 2] rfl rfl
    (by
      rintro ⟨s, hs⟩
      have h1 := hs ⟨"♠", "6"⟩ (by simp)
      have h2 := hs ⟨"♥", "5"⟩ (by simp)
      exact absurd (h1.trans h2.symm) (by decide))).1 2 (by decide)

/-- C10: a five-card hand whose numeric ranks are `14, 2, 3, 4, 5` (ace, two, three,
four, five; such a hand has five cards) is never evaluated as Straight (5) or Straight
Flush (9): it is High Card with key `[14, 5, 4, 3, 2]` when the suits are not all equal
and Flush with the same key when they are. -/
theorem evaluate_ace_low (hand : List Card) (nums : List Int)
    (hnum : numericValues hand = some nums) (hperm : nums.Perm [14, 2, 3, 4, 5]) :
    ((¬ ∃ s, ∀ c ∈ hand, c.suit = s) →
      evaluate hand = some ⟨1, [some 14, some 5, some 4, some 3, some 2], "High Card"⟩) ∧
    ((∃ s, ∀ c ∈ hand, c.suit = s) →
      evaluate hand = some ⟨6, [some 14, some 5, some 4, some 3, some 2], "Flush"⟩) ∧
    (∀ ev : Evaluation, evaluate hand = some ev → ev.category ≠ 5 ∧ ev.category ≠ 9) := by
  have hs : sortDesc nums = [14, 5, 4, 3, 2] :=
    sortDesc_eq_of_perm_sorted (hperm.trans (by decide))
      (sorted_desc_five (by decide) (by decide) (by decide) (by decide))
  have hev : evaluate hand = some
      (if isFlush (hand.map Card.suit) = true then
        ⟨6, [some 14, some 5, some 4, some 3, some 2], "Flush"⟩
       else ⟨1, [some 14, some 5, some 4, some 3, some 2], "High Card"⟩) := by
    rw [evaluate_eq hnum, hs,
      classify_abcde 14 5 4 3 2 (by decide) (by decide) (by decide) (by decide)]
    simp
  refine ⟨?_, ?_, ?_⟩
  · intro hmix
    have hf : ¬ isFlush (hand.map Card.suit) = true :=
      fun h => hmix ((isFlush_iff hand).mp h)
    rw [hev, if_neg hf]
  · intro hsame
    rw [hev, if_pos ((isFlush_iff hand).mpr hsame)]
  · intro ev h
    rw [hev] at h
    simp only [Option.some.injEq] at h
    subst h
    split_ifs <;> simp

/-- Witness for C10: A♠ 2♥ 3♦ 4♣ 5♠, with mixed suits, is High Card with key
`[14, 5, 4, 3, 2]`. -/
theorem evaluate_ace_low_witness :
    evaluate [⟨"♠", "A"⟩, ⟨"♥", "2"⟩, ⟨"♦", "3"⟩, ⟨"♣", "4"⟩, ⟨"♠", "5"⟩] =
      some ⟨1, [some 14, some 5, some 4, some 3, some 2], "High Card"⟩ :=
  (evaluate_ace_low [⟨"♠", "A"⟩, ⟨"♥", "2"⟩, ⟨"♦", "3"⟩, ⟨"♣", "4"⟩, ⟨"♠", "5"⟩]
    [14, 2, 3, 4, 5] rfl (by decide)).1
    (by
      rintro ⟨s, hs⟩
      have h1 := hs ⟨"♠", "A"⟩ (by simp)
      have h2 := hs ⟨"♥", "2"⟩ (by simp)
      exact absurd (h1.trans h2.symm) (by decide))

/-! ## Rank patterns behind the categories -/

/-- What each category says about a descending list of five ranks: the key returned by
`classify` together with the pattern of ranks that produced it. -/
theorem classify_five_patterns (a b c d e : Int) (h1 : b ≤ a) (h2 : c ≤ b) (h3 : d ≤ c)
    (h4 : e ≤ d) (suits : List String) (ev : Evaluation)
    (hev : classify [a, b, c, d, e] suits = ev) :
    ((ev.category = 10 ∨ ev.category = 9 ∨ ev.category = 6 ∨ ev.category = 5) ∧
      ev.key = [some a, some b, some c, some d, some e]) ∨
    (ev.category = 1 ∧ ev.key = [some a, some b, some c, some d, some e] ∧
      isFlush suits = false ∧ b < a ∧ c < b ∧ d < c ∧ e < d ∧
      ¬ (d = e + 1 ∧ c = d + 1 ∧ b = c + 1 ∧ a = b + 1)) ∨
    (ev.category = 1 ∧ ev.key = [some a, some b, some c, some d, some e] ∧
      isFlush suits = false ∧ a = b ∧ b = c ∧ c = d ∧ d = e) ∨
    (ev.category = 8 ∧ ∃ r k : Int, r ≠ k ∧ [a, b, c, d, e].Perm [r, r, r, r, k] ∧
      ev.key = [some r, some k]) ∨
    (ev.category = 7 ∧ ∃ t p : Int, t ≠ p ∧ [a, b, c, d, e].Perm [t, t, t, p, p] ∧
      ev.key = [some t, some p]) ∨
    (ev.category = 4 ∧ isFlush suits = false ∧ ∃ t k₁ k₂ : Int, k₂ < k₁ ∧ t ≠ k₁ ∧ t ≠ k₂ ∧
      [a, b, c, d, e].Perm [t, t, t, k₁, k₂] ∧ ev.key = [some t, some k₁, some k₂]) ∨
    (ev.category = 3 ∧ isFlush suits = false ∧ ∃ p₁ p₂ k : Int, p₂ < p₁ ∧ k ≠ p₁ ∧ k ≠ p₂ ∧
      [a, b, c, d, e].Perm [p₁, p₁, p₂, p₂, k] ∧ ev.key = [some p₁, some p₂, some k]) ∨
    (ev.category = 2 ∧ isFlush suits = false ∧ ∃ p k₁ k₂ k₃ : Int, k₂ < k₁ ∧ k₃ < k₂ ∧
      p ≠ k₁ ∧ p ≠ k₂ ∧ p ≠ k₃ ∧ [a, b, c, d, e].Perm [p, p, k₁, k₂, k₃] ∧
      ev.key = [some p, some k₁, some k₂, some k₃]) := by
  subst hev
  rcases classify_five_cases a b c d e h1 h2 h3 h4 suits with
    ⟨e1, e2, e3, e4, hc⟩ | ⟨e1, e2, e3, e4, hc⟩ | ⟨e1, e2, e3, e4, hc⟩ |
    ⟨e1, e2, e3, e4, hc⟩ | ⟨e1, e2, e3, e4, hc⟩ | ⟨e1, e2, e3, e4, hc⟩ |
    ⟨e1, e2, e3, e4, hc⟩ | ⟨e1, e2, e3, e4, hc⟩ | ⟨e1, e2, e3, e4, hc⟩ |
    ⟨e1, e2, e3, e4, hc⟩ | ⟨e1, e2, e3, e4, hc⟩ | ⟨e1, e2, e3, e4, hc⟩ |
    ⟨e1, e2, e3, e4, hc⟩ | ⟨e1, e2, e3, e4, hc⟩ | ⟨e1, e2, e3, e4, hc⟩ |
    ⟨e1, e2, e3, e4, hc⟩
  all_goals
    first
      | subst e1
      | skip
  all_goals
    first
      | subst e2
      | skip
  all_goals
    first
      | subst e3
      | skip
  all_goals
    first
      | subst e4
      | skip
  all_goals rw [hc]
  all_goals
    first
      | split_ifs with k₁ k₂ k₃ k₄
      | skip
  all_goals
    first
      | (refine Or.inl ⟨?_, rfl⟩
         dsimp only
         omega)
      | exact Or.inr (Or.inl ⟨rfl, rfl, by simpa using k₃, by omega, by omega, by omega,
          by omega, k₄⟩)
      | exact Or.inr (Or.inr (Or.inl ⟨rfl, rfl, by simpa using k₁, rfl, rfl, rfl, rfl⟩))
      | (refine Or.inr (Or.inr (Or.inr (Or.inl ⟨rfl, _, _, ?_, ?_, rfl⟩)))
         · omega
         · first
             | exact List.Perm.refl _
             | (rw [List.perm_iff_count]
                intro x
                simp only [List.count_cons, List.count_nil]
                omega))
      | (refine Or.inr (Or.inr (Or.inr (Or.inr (Or.inl ⟨rfl, _, _, ?_, ?_, rfl⟩))))
         · omega
         · first
             | exact List.Perm.refl _
             | (rw [List.perm_iff_count]
                intro x
                simp only [List.count_cons, List.count_nil]
                omega))
      | (refine Or.inr (Or.inr (Or.inr (Or.inr (Or.inr (Or.inl
          ⟨rfl, by simpa using k₁, _, _, _, ?_, ?_, ?_, ?_, rfl⟩)))))
         · omega
         · omega
         · omega
         · first
             | exact List.Perm.refl _
             | (rw [List.perm_iff_count]
                intro x
                simp only [List.count_cons, List.count_nil]
                omega))
      | (refine Or.inr (Or.inr (Or.inr (Or.inr (Or.inr (Or.inr (Or.inl
          ⟨rfl, by simpa using k₁, _, _, _, ?_, ?_, ?_, ?_, rfl⟩))))))
         · omega
         · omega
         · omega
         · first
             | exact List.Perm.refl _
             | (rw [List.perm_iff_count]
                intro x
                simp only [List.count_cons, List.count_nil]
                omega))
      | (refine Or.inr (Or.inr (Or.inr (Or.inr (Or.inr (Or.inr (Or.inr
          ⟨rfl, by simpa using k₁, _, _, _, _, ?_, ?_, ?_, ?_, ?_, ?_, rfl⟩))))))
         · omega
         · omega
         · omega
         · omega
         · omega
         · first
             | exact List.Perm.refl _
             | (rw [List.perm_iff_count]
                intro x
                simp only [List.count_cons, List.count_nil]
                omega))

/-- C11: a five-card hand whose cards do not all share one suit and in which exactly
three cards have the numeric rank `t` while the other two have distinct ranks
`k₁ > k₂` different from `t` evaluates to `[4, [t, k₁, k₂], "Three of a Kind"]`;
conversely a five-card hand evaluated to category 4 has this rank pattern. -/
theorem evaluate_three_of_a_kind (hand : List Card) (nums : List Int)
    (hlen : hand.length = 5) (hnum : numericValues hand = some nums) :
    ((¬ ∃ s, ∀ c ∈ hand, c.suit = s) → ∀ t k₁ k₂ : Int, k₂ < k₁ → t ≠ k₁ → t ≠ k₂ →
      nums.Perm [t, t, t, k₁, k₂] →
      evaluate hand = some ⟨4, [some t, some k₁, some k₂], "Three of a Kind"⟩) ∧
    (∀ ev : Evaluation, evaluate hand = some ev → ev.category = 4 →
      ∃ t k₁ k₂ : Int, k₂ < k₁ ∧ t ≠ k₁ ∧ t ≠ k₂ ∧ nums.Perm [t, t, t, k₁, k₂]) := by
  constructor
  · intro hmix t k₁ k₂ hk h1 h2 hperm
    have hf : ¬ isFlush (hand.map Card.suit) = true :=
      fun h => hmix ((isFlush_iff hand).mp h)
    rw [evaluate_eq hnum]
    rcases lt_or_gt_of_ne h1 with hlt | hgt
    · rcases lt_or_gt_of_ne h2 with hlt' | hgt'
      · have hp : [t, t, t, k₁, k₂].Perm [k₁, k₂, t, t, t] := by
          rw [List.perm_iff_count]
          intro x
          simp only [List.count_cons, List.count_nil]
          omega
        rw [sortDesc_eq_of_perm_sorted (hperm.trans hp)
            (sorted_desc_five (by omega) (by omega) (by omega) (by omega)),
          classify_abccc k₁ k₂ t hk hlt', if_neg hf]
      · have hp : [t, t, t, k₁, k₂].Perm [k₁, t, t, t, k₂] := by
          rw [List.perm_iff_count]
          intro x
          simp only [List.count_cons, List.count_nil]
          omega
        rw [sortDesc_eq_of_perm_sorted (hperm.trans hp)
            (sorted_desc_five (by omega) (by omega) (by omega) (by omega)),
          classify_abbbc k₁ t k₂ hlt hgt', if_neg hf]
    · rw [sortDesc_eq_of_perm_sorted hperm
          (sorted_desc_five (by omega) (by omega) (by omega) (by omega)),
        classify_aaabc t k₁ k₂ hgt hk, if_neg hf]
  · intro ev hev hcat
    obtain ⟨a, b, c, d, e, h1, h2, h3, h4, hperm, _, hev'⟩ := evaluate_five hlen hnum
    rw [hev] at hev'
    rcases classify_five_patterns a b c d e h1 h2 h3 h4 _ ev (Option.some.inj hev').symm with
      ⟨hc, _⟩ | ⟨hc, _⟩ | ⟨hc, _⟩ | ⟨hc, _⟩ | ⟨hc, _⟩ |
      ⟨_, _, t, k₁, k₂, hk, ht1, ht2, hp, _⟩ | ⟨hc, _⟩ | ⟨hc, _⟩
    any_goals (exfalso; omega)
    exact ⟨t, k₁, k₂, hk, ht1, ht2, hperm.trans hp⟩

/-- Witness for C11: 6♠ 6♥ 6♦ 4♣ 2♠ is Three of a Kind with key `[6, 4, 2]`. -/
theorem evaluate_three_of_a_kind_witness :
    evaluate [⟨"♠", "6"⟩, ⟨"♥", "6"⟩, ⟨"♦", "6"⟩, ⟨"♣", "4"⟩, ⟨"♠", "2"⟩] =
      some ⟨4, [some 6, some 4, some 2], "Three of a Kind"⟩ :=
  (evaluate_three_of_a_kind [⟨"♠", "6"⟩, ⟨"♥", "6"⟩, ⟨"♦", "6"⟩, ⟨"♣", "4"⟩, ⟨"♠", "2"⟩]
    [6, 6, 6, 4, 2] rfl rfl).1
    (by
      rintro ⟨s, hs⟩
      have h1 := hs ⟨"♠", "6"⟩ (by simp)
      have h2 := hs ⟨"♥", "6"⟩ (by simp)
      exact absurd (h1.trans h2.symm) (by decide))
    6 4 2 (by decide) (by decide) (by decide) (by decide)

/-- C12: a five-card hand whose cards do not all share one suit and whose numeric
ranks are two cards of rank `p₁`, two cards of rank `p₂` with `p₁ > p₂`, and one card
of a third rank `k` evaluates to `[3, [p₁, p₂, k], "Two Pair"]`, the higher pair first
whatever the order of the cards and whatever the size of `k`; conversely a five-card
hand evaluated to category 3 has this rank pattern. -/
theorem evaluate_two_pair (hand : List Card) (nums : List Int)
    (hlen : hand.length = 5) (hnum : numericValues hand = some nums) :
    ((¬ ∃ s, ∀ c ∈ hand, c.suit = s) → ∀ p₁ p₂ k : Int, p₂ < p₁ → k ≠ p₁ → k ≠ p₂ →
      nums.Perm [p₁, p₁, p₂, p₂, k] →
      evaluate hand = some ⟨3, [some p₁, some p₂, some k], "Two Pair"⟩) ∧
    (∀ ev : Evaluation, evaluate hand = some ev → ev.category = 3 →
      ∃ p₁ p₂ k : Int, p₂ < p₁ ∧ k ≠ p₁ ∧ k ≠ p₂ ∧ nums.Perm [p₁, p₁, p₂, p₂, k]) := by
  constructor
  · intro hmix p₁ p₂ k hp12 h1 h2 hperm
    have hf : ¬ isFlush (hand.map Card.suit) = true :=
      fun h => hmix ((isFlush_iff hand).mp h)
    rw [evaluate_eq hnum]
    rcases lt_or_gt_of_ne h1 with hlt | hgt
    · rcases lt_or_gt_of_ne h2 with hlt' | hgt'
      · rw [sortDesc_eq_of_perm_sorted hperm
            (sorted_desc_five (by omega) (by omega) (by omega) (by omega)),
          classify_aabbc p₁ p₂ k hp12 hlt', if_neg hf]
      · have hp : [p₁, p₁, p₂, p₂, k].Perm [p₁, p₁, k, p₂, p₂] := by
          rw [List.perm_iff_count]
          intro x
          simp only [List.count_cons, List.count_nil]
          omega
        rw [sortDesc_eq_of_perm_sorted (hperm.trans hp)
            (sorted_desc_five (by omega) (by omega) (by omega) (by omega)),
          classify_aabcc p₁ k p₂ hlt hgt', if_neg hf]
    · have hp : [p₁, p₁, p₂, p₂, k].Perm [k, p₁, p₁, p₂, p₂] := by
        rw [List.perm_iff_count]
        intro x
        simp only [List.count_cons, List.count_nil]
        omega
      rw [sortDesc_eq_of_perm_sorted (hperm.trans hp)
          (sorted_desc_five (by omega) (by omega) (by omega) (by omega)),
        classify_abbcc k p₁ p₂ hgt hp12, if_neg hf]
  · intro ev hev hcat
    obtain ⟨a, b, c, d, e, h1, h2, h3, h4, hperm, _, hev'⟩ := evaluate_five hlen hnum
    rw [hev] at hev'
    rcases classify_five_patterns a b c d e h1 h2 h3 h4 _ ev (Option.some.inj hev').symm with
      ⟨hc, _⟩ | ⟨hc, _⟩ | ⟨hc, _⟩ | ⟨hc, _⟩ | ⟨hc, _⟩ | ⟨hc, _⟩ |
      ⟨_, _, p₁, p₂, k, hp12, hk1, hk2, hp, _⟩ | ⟨hc, _⟩
    any_goals (exfalso; omega)
    exact ⟨p₁, p₂, k, hp12, hk1, hk2, hperm.trans hp⟩

/-- Witness for C12: 4♠ 6♥ 2♦ 4♣ 6♠, dealt in this order, is Two Pair with key
`[6, 4, 2]`. -/
theorem evaluate_two_pair_witness :
    evaluate [⟨"♠", "4"⟩, ⟨"♥", "6"⟩, ⟨"♦", "2"⟩, ⟨"♣", "4"⟩, ⟨"♠", "6"⟩] =
      some ⟨3, [some 6, some 4, some 2], "Two Pair"⟩ :=
  (evaluate_two_pair [⟨"♠", "4"⟩, ⟨"♥", "6"⟩, ⟨"♦", "2"⟩, ⟨"♣", "4"⟩, ⟨"♠", "6"⟩]
    [4, 6, 2, 4, 6] rfl rfl).1
    (by
      rintro ⟨s, hs⟩
      have h1 := hs ⟨"♠", "4"⟩ (by simp)
      have h2 := hs ⟨"♥", "6"⟩ (by simp)
      exact absurd (h1.trans h2.symm) (by decide))
    6 4 2 (by decide) (by decide) (by decide) (by decide)

/-- C13: a five-card hand whose cards do not all share one suit and whose numeric
ranks are two cards of rank `p` and three cards of pairwise distinct ranks
`k₁ > k₂ > k₃` different from `p` evaluates to `[2, [p, k₁, k₂, k₃], "One Pair"]`;
conversely a five-card hand evaluated to category 2 has this rank pattern. -/
theorem evaluate_one_pair (hand : List Card) (nums : List Int)
    (hlen : hand.length = 5) (hnum : numericValues hand = some nums) :
    ((¬ ∃ s, ∀ c ∈ hand, c.suit = s) → ∀ p k₁ k₂ k₃ : Int, k₂ < k₁ → k₃ < k₂ →
      p ≠ k₁ → p ≠ k₂ → p ≠ k₃ → nums.Perm [p, p, k₁, k₂, k₃] →
      evaluate hand = some ⟨2, [some p, some k₁, some k₂, some k₃], "One Pair"⟩) ∧
    (∀ ev : Evaluation, evaluate hand = some ev → ev.category = 2 →
      ∃ p k₁ k₂ k₃ : Int, k₂ < k₁ ∧ k₃ < k₂ ∧ p ≠ k₁ ∧ p ≠ k₂ ∧ p ≠ k₃ ∧
        nums.Perm [p, p, k₁, k₂, k₃]) := by
  constructor
  · intro hmix p k₁ k₂ k₃ h12 h23 h1 h2 h3 hperm
    have hf : ¬ isFlush (hand.map Card.suit) = true :=
      fun h => hmix ((isFlush_iff hand).mp h)
    rw [evaluate_eq hnum]
    rcases lt_or_gt_of_ne h1 with hlt₁ | hgt₁
    · rcases lt_or_gt_of_ne h2 with hlt₂ | hgt₂
      · rcases lt_or_gt_of_ne h3 with hlt₃ | hgt₃
        · have hp : [p, p, k₁, k₂, k₃].Perm [k₁, k₂, k₃, p, p] := by
            rw [List.perm_iff_count]
            intro x
            simp only [List.count_cons, List.count_nil]
            omega
          rw [sortDesc_eq_of_perm_sorted (hperm.trans hp)
              (sorted_desc_five (by omega) (by omega) (by omega) (by omega)),
            classify_abcdd k₁ k₂ k₃ p h12 h23 hlt₃, if_neg hf]
        · have hp : [p, p, k₁, k₂, k₃].Perm [k₁, k₂, p, p, k₃] := by
            rw [List.perm_iff_count]
            intro x
            simp only [List.count_cons, List.count_nil]
            omega
          rw [sortDesc_eq_of_perm_sorted (hperm.trans hp)
              (sorted_desc_five (by omega) (by omega) (by omega) (by omega)),
            classify_abccd k₁ k₂ p k₃ h12 hlt₂ hgt₃, if_neg hf]
      · have hp : [p, p, k₁, k₂, k₃].Perm [k₁, p, p, k₂, k₃] := by
          rw [List.perm_iff_count]
          intro x
          simp only [List.count_cons, List.count_nil]
          omega
        rw [sortDesc_eq_of_perm_sorted (hperm.trans hp)
            (sorted_desc_five (by omega) (by omega) (by omega) (by omega)),
          classify_abbcd k₁ p k₂ k₃ hlt₁ hgt₂ h23, if_neg hf]
    · rw [sortDesc_eq_of_perm_sorted hperm
          (sorted_desc_five (by omega) (by omega) (by omega) (by omega)),
        classify_aabcd p k₁ k₂ k₃ hgt₁ h12 h23, if_neg hf]
  · intro ev hev hcat
    obtain ⟨a, b, c, d, e, h1, h2, h3, h4, hperm, _, hev'⟩ := evaluate_five hlen hnum
    rw [hev] at hev'
    rcases classify_five_patterns a b c d e h1 h2 h3 h4 _ ev (Option.some.inj hev').symm with
      ⟨hc, _⟩ | ⟨hc, _⟩ | ⟨hc, _⟩ | ⟨hc, _⟩ | ⟨hc, _⟩ | ⟨hc, _⟩ | ⟨hc, _⟩ |
      ⟨_, _, p, k₁, k₂, k₃, h12, h23, hp1, hp2, hp3, hp, _⟩
    any_goals (exfalso; omega)
    exact ⟨p, k₁, k₂, k₃, h12, h23, hp1, hp2, hp3, hperm.trans hp⟩

/-- Witness for C13: 10♠ 10♥ 9♦ 7♣ 4♠ is One Pair with key `[10, 9, 7, 4]`. -/
theorem evaluate_one_pair_witness :
    evaluate [⟨"♠", "10"⟩, ⟨"♥", "10"⟩, ⟨"♦", "9"⟩, ⟨"♣", "7"⟩, ⟨"♠", "4"⟩] =
      some ⟨2, [some 10, some 9, some 7, some 4], "One Pair"⟩ :=
  (evaluate_one_pair [⟨"♠", "10"⟩, ⟨"♥", "10"⟩, ⟨"♦", "9"⟩, ⟨"♣", "7"⟩, ⟨"♠", "4"⟩]
    [10, 10, 9, 7, 4] rfl rfl).1
    (by
      rintro ⟨s, hs⟩
      have h1 := hs ⟨"♠", "10"⟩ (by simp)
      have h2 := hs ⟨"♥", "10"⟩ (by simp)
      exact absurd (h1.trans h2.symm) (by decide))
    10 9 7 4 (by decide) (by decide) (by decide) (by decide) (by decide) (by decide)

/-! ## High Card, hands of other lengths, and the numeric value of a card -/

/-- A rearrangement of five equal ranks is the list of these five ranks. -/
theorem eq_of_perm_five_equal {nums : List Int} {r : Int} (h : nums.Perm [r, r, r, r, r]) :
    nums = [r, r, r, r, r] := by
  have h5 : [r, r, r, r, r] = List.replicate 5 r := rfl
  rw [h5] at h ⊢
  exact List.perm_replicate.mp h

/-- High Card on a five-card hand whose five numeric ranks are not all equal: `evaluate`
returns category 1 exactly when the five ranks are pairwise distinct, the cards do not
all share one suit, and the ranks are not five consecutive integers; the result is then
named "High Card" and its key is the five ranks in strictly descending order. -/
theorem evaluate_high_card_of_not_all_equal (hand : List Card) (nums : List Int)
    (hlen : hand.length = 5)
    (hnum : numericValues hand = some nums) (hne : ¬ ∃ r : Int, nums = [r, r, r, r, r]) :
    ((∃ ev : Evaluation, evaluate hand = some ev ∧ ev.category = 1) ↔
      (nums.Nodup ∧ (¬ ∃ s, ∀ c ∈ hand, c.suit = s) ∧
        ¬ ∃ x : Int, nums.Perm [x, x + 1, x + 2, x + 3, x + 4])) ∧
    (∀ ev : Evaluation, evaluate hand = some ev → ev.category = 1 →
      ev.name = "High Card" ∧
      ∃ a b c d e : Int, b < a ∧ c < b ∧ d < c ∧ e < d ∧ nums.Perm [a, b, c, d, e] ∧
        ev.key = [some a, some b, some c, some d, some e]) := by
  obtain ⟨a, b, c, d, e, h1, h2, h3, h4, hperm, hsd, hev⟩ := evaluate_five hlen hnum
  have key : ∀ ev : Evaluation, evaluate hand = some ev → ev.category = 1 →
      b < a ∧ c < b ∧ d < c ∧ e < d ∧ isFlush (hand.map Card.suit) = false ∧
      ¬ (d = e + 1 ∧ c = d + 1 ∧ b = c + 1 ∧ a = b + 1) ∧
      ev = ⟨1, [some a, some b, some c, some d, some e], "High Card"⟩ := by
    intro ev hev' hcat
    rw [hev'] at hev
    have hcl := (Option.some.inj hev).symm
    rcases classify_five_patterns a b c d e h1 h2 h3 h4 _ ev hcl with
      ⟨hc, _⟩ | ⟨_, _, hf, l1, l2, l3, l4, hst⟩ | ⟨_, _, _, e1, e2, e3, e4⟩ | ⟨hc, _⟩ |
      ⟨hc, _⟩ | ⟨hc, _⟩ | ⟨hc, _⟩ | ⟨hc, _⟩
    any_goals (exfalso; omega)
    · refine ⟨l1, l2, l3, l4, hf, hst, ?_⟩
      have hf' : ¬ isFlush (hand.map Card.suit) = true := by simp [hf]
      rw [← hcl, classify_abcde a b c d e l1 l2 l3 l4, if_neg (fun h => hf' h.1),
        if_neg (fun h => hf' h.1), if_neg hf', if_neg hst]
    · exfalso
      subst e1 e2 e3 e4
      exact hne ⟨_, eq_of_perm_five_equal hperm⟩
  constructor
  · constructor
    · rintro ⟨ev, hev', hcat⟩
      obtain ⟨l1, l2, l3, l4, hf, hst, _⟩ := key ev hev' hcat
      refine ⟨?_, ?_, ?_⟩
      · apply hperm.nodup_iff.mpr
        simp only [List.nodup_cons, List.mem_cons, List.mem_singleton, List.not_mem_nil,
          or_false, not_or, not_false_eq_true, List.nodup_nil, and_true]
        omega
      · intro hs
        rw [(isFlush_iff hand).mpr hs] at hf
        exact absurd hf (by decide)
      · rintro ⟨x, hx⟩
        rw [sortDesc_run hx] at hsd
        simp only [List.cons.injEq, and_true] at hsd
        exact hst (by omega)
    · rintro ⟨hnd, hmix, hrun⟩
      have hf : ¬ isFlush (hand.map Card.suit) = true :=
        fun h => hmix ((isFlush_iff hand).mp h)
      obtain ⟨l1, l2, l3, l4⟩ :=
        strict_of_nodup_five h1 h2 h3 h4 (hperm.nodup_iff.mp hnd)
      have hst : ¬ (d = e + 1 ∧ c = d + 1 ∧ b = c + 1 ∧ a = b + 1) := fun h =>
        hrun ⟨e, hperm.trans (perm_run_of_desc h.1 h.2.1 h.2.2.1 h.2.2.2)⟩
      rw [classify_abcde a b c d e l1 l2 l3 l4, if_neg (fun h => hf h.1),
        if_neg (fun h => hf h.1), if_neg hf, if_neg hst] at hev
      exact ⟨_, hev, rfl⟩
  · intro ev hev' hcat
    obtain ⟨l1, l2, l3, l4, _, _, hval⟩ := key ev hev' hcat
    subst hval
    exact ⟨rfl, a, b, c, d, e, l1, l2, l3, l4, hperm, rfl⟩

/-- `classify` always returns one of the ten category numbers, whatever its arguments. -/
theorem classify_category_bounds (values : List Int) (suits : List String) :
    1 ≤ (classify values suits).category ∧ (classify values suits).category ≤ 10 := by
  simp only [classify]
  split_ifs <;> simp

/-- The evaluation of a single card. -/
theorem classify_singleton (n : Int) (s : String) :
    classify [n] [s] = ⟨9, [some n], "Straight Flush"⟩ := by
  simp [classify, sortAsc, isFlush, isStraight, List.enum, List.enumFrom]

/-- C15, as stated, fails: the empty hand, whose length is not 5, is not rejected;
`evaluate` returns the evaluation `[9, [], "Straight Flush"]` for it. -/
theorem evaluate_empty_hand_counterexample :
    ([] : List Card).length ≠ 5 ∧ evaluate [] = some ⟨9, [], "Straight Flush"⟩ := by
  refine ⟨by decide, by decide⟩

/-- C15, amended: `evaluate` does not check the length of the hand.  On every hand with
valid ranks, of any length, it returns a triple whose category is one of `1..10` and
signals no error; the empty hand and every one-card hand are evaluated to category 9
"Straight Flush", with one key entry per card. -/
theorem evaluate_any_length (hand : List Card) (hv : validRanks hand) :
    ∃ ev : Evaluation, evaluate hand = some ev ∧ 1 ≤ ev.category ∧ ev.category ≤ 10 ∧
      (hand.length ≤ 1 →
        ev.category = 9 ∧ ev.name = "Straight Flush" ∧ ev.key.length = hand.length) := by
  obtain ⟨nums, hnum, _⟩ := numericValues_of_valid hand hv
  refine ⟨_, evaluate_eq hnum, (classify_category_bounds _ _).1,
    (classify_category_bounds _ _).2, ?_⟩
  intro hlen
  match hand, hnum, hlen with
  | [], hnum, _ =>
    simp only [numericValues, Option.some.injEq] at hnum
    subst hnum
    exact ⟨by decide, by decide, by decide⟩
  | [c], hnum, _ =>
    obtain ⟨n, ns, _, hns, rfl⟩ := numericValues_cons_eq_some hnum
    simp only [numericValues, Option.some.injEq] at hns
    subst hns
    have hs : sortDesc [n] = [n] := rfl
    rw [hs, List.map_cons, List.map_nil, classify_singleton]
    exact ⟨rfl, rfl, rfl⟩

/-- Witness for C15: the one-card hand A♠ is evaluated to `[9, [14], "Straight Flush"]`. -/
theorem evaluate_any_length_witness :
    validRanks [⟨"♠", "A"⟩] ∧
    evaluate [⟨"♠", "A"⟩] = some ⟨9, [some 14], "Straight Flush"⟩ ∧
    ∃ ev : Evaluation, evaluate [⟨"♠", "A"⟩] = some ev ∧ 1 ≤ ev.category ∧
      ev.category ≤ 10 ∧
      (([⟨"♠", "A"⟩] : List Card).length ≤ 1 →
        ev.category = 9 ∧ ev.name = "Straight Flush" ∧
        ev.key.length = ([⟨"♠", "A"⟩] : List Card).length) :=
  ⟨by decide, by decide, evaluate_any_length [⟨"♠", "A"⟩] (by decide)⟩

/-- C16: on the thirteen faces `2..10, J, Q, K, A` the numeric value of a card is 14 for
`A`, 13 for `K`, 12 for `Q`, 11 for `J` and `n` for the numeral `n`; it lies in
`[2, 14]`, determines the face, and does not depend on the suit. -/
theorem getNumericValue_faces :
    (∀ s : String,
      (Card.mk s "A").getNumericValue = some 14 ∧ (Card.mk s "K").getNumericValue = some 13 ∧
      (Card.mk s "Q").getNumericValue = some 12 ∧ (Card.mk s "J").getNumericValue = some 11 ∧
      (Card.mk s "10").getNumericValue = some 10 ∧ (Card.mk s "9").getNumericValue = some 9 ∧
      (Card.mk s "8").getNumericValue = some 8 ∧ (Card.mk s "7").getNumericValue = some 7 ∧
      (Card.mk s "6").getNumericValue = some 6 ∧ (Card.mk s "5").getNumericValue = some 5 ∧
      (Card.mk s "4").getNumericValue = some 4 ∧ (Card.mk s "3").getNumericValue = some 3 ∧
      (Card.mk s "2").getNumericValue = some 2) ∧
    (∀ c : Card, c.value ∈ Deck.values →
      ∃ n : Int, c.getNumericValue = some n ∧ 2 ≤ n ∧ n ≤ 14) ∧
    (∀ c₁ c₂ : Card, c₁.value ∈ Deck.values → c₂.value ∈ Deck.values →
      c₁.getNumericValue = c₂.getNumericValue → c₁.value = c₂.value) ∧
    (∀ s₁ s₂ v : String, (Card.mk s₁ v).getNumericValue = (Card.mk s₂ v).getNumericValue) :=
  ⟨fun _ => ⟨rfl, rfl, rfl, rfl, rfl, rfl, rfl, rfl, rfl, rfl, rfl, rfl, rfl⟩,
    getNumericValue_of_valid, getNumericValue_inj_of_valid, fun _ _ _ => rfl⟩

/-- Witness for C16: the ten of spades and the ten of hearts both have the numeric
value 10, and a ten and a jack have different numeric values. -/
theorem getNumericValue_faces_witness :
    (Card.mk "♠" "10").getNumericValue = some 10 ∧
    (Card.mk "♠" "10").getNumericValue = (Card.mk "♥" "10").getNumericValue ∧
    (Card.mk "♠" "10").getNumericValue ≠ (Card.mk "♠" "J").getNumericValue :=
  ⟨(getNumericValue_faces.1 "♠").2.2.2.2.1, getNumericValue_faces.2.2.2 "♠" "♥" "10",
    fun h => absurd (getNumericValue_faces.2.2.1 ⟨"♠", "10"⟩ ⟨"♠", "J"⟩
      (by decide) (by decide) h) (by decide)⟩

/-! ## The keys and the ordering of the specification -/

/-- The list of the specification is determined by any rearrangement `P` of the ranks:
it is the list of the distinct entries of `P` once that list is in the order of the
specification. -/
theorem distinctRanks_eq_of_perm {ranks P L : List Int} (hperm : ranks.Perm P)
    (hd : P.dedup = L) (hs : L.Sorted (rankOrder P)) : distinctRanksByCountDesc ranks = L := by
  have hiff : ∀ x y : Int, rankOrder ranks x y → rankOrder P x y := by
    intro x y h
    simpa only [rankOrder, hperm.count_eq] using h
  apply List.eq_of_perm_of_sorted (r := rankOrder P)
  · exact (List.perm_insertionSort (rankOrder ranks) ranks.dedup).trans
      (hperm.dedup.trans (by rw [hd]))
  · exact (List.sorted_insertionSort (rankOrder ranks) ranks.dedup).imp (hiff _ _)
  · exact hs

/-- Four of a kind: the list of the specification is `[r, k]`. -/
theorem distinctRanks_four {ranks : List Int} {r k : Int} (hrk : r ≠ k)
    (hperm : ranks.Perm [r, r, r, r, k]) : distinctRanksByCountDesc ranks = [r, k] := by
  have hkr : k ≠ r := fun h => hrk h.symm
  apply distinctRanks_eq_of_perm hperm
  · simp [List.dedup_cons_of_mem, List.dedup_cons_of_not_mem, hrk, hkr]
  · simp [List.Sorted, rankOrder, List.count_cons, hrk, hkr]

/-- Full house: the list of the specification is `[t, p]`. -/
theorem distinctRanks_full {ranks : List Int} {t p : Int} (htp : t ≠ p)
    (hperm : ranks.Perm [t, t, t, p, p]) : distinctRanksByCountDesc ranks = [t, p] := by
  have hpt : p ≠ t := fun h => htp h.symm
  apply distinctRanks_eq_of_perm hperm
  · simp [List.dedup_cons_of_mem, List.dedup_cons_of_not_mem, htp, hpt]
  · simp [List.Sorted, rankOrder, List.count_cons, htp, hpt]

/-- Three of a kind: the list of the specification is `[t, k₁, k₂]`. -/
theorem distinctRanks_three {ranks : List Int} {t k₁ k₂ : Int} (hk : k₂ < k₁) (h1 : t ≠ k₁)
    (h2 : t ≠ k₂) (hperm : ranks.Perm [t, t, t, k₁, k₂]) :
    distinctRanksByCountDesc ranks = [t, k₁, k₂] := by
  have h1' : k₁ ≠ t := fun h => h1 h.symm
  have h2' : k₂ ≠ t := fun h => h2 h.symm
  apply distinctRanks_eq_of_perm hperm
  · simp [List.dedup_cons_of_mem, List.dedup_cons_of_not_mem, h1, h2, h1', h2', hk.ne, hk.ne']
  · simp [List.Sorted, rankOrder, List.count_cons, h1, h2, h1', h2', hk.ne, hk.ne', hk.le]

/-- Two pair: the list of the specification is `[p₁, p₂, k]`. -/
theorem distinctRanks_two_pair {ranks : List Int} {p₁ p₂ k : Int} (hp : p₂ < p₁) (h1 : k ≠ p₁)
    (h2 : k ≠ p₂) (hperm : ranks.Perm [p₁, p₁, p₂, p₂, k]) :
    distinctRanksByCountDesc ranks = [p₁, p₂, k] := by
  have h1' : p₁ ≠ k := fun h => h1 h.symm
  have h2' : p₂ ≠ k := fun h => h2 h.symm
  apply distinctRanks_eq_of_perm hperm
  · simp [List.dedup_cons_of_mem, List.dedup_cons_of_not_mem, h1, h2, h1', h2', hp.ne, hp.ne']
  · simp [List.Sorted, rankOrder, List.count_cons, h1, h2, h1', h2', hp.ne, hp.ne', hp.le]

/-- One pair: the list of the specification is `[p, k₁, k₂, k₃]`. -/
theorem distinctRanks_pair {ranks : List Int} {p k₁ k₂ k₃ : Int} (h12 : k₂ < k₁)
    (h23 : k₃ < k₂) (h1 : p ≠ k₁) (h2 : p ≠ k₂) (h3 : p ≠ k₃)
    (hperm : ranks.Perm [p, p, k₁, k₂, k₃]) :
    distinctRanksByCountDesc ranks = [p, k₁, k₂, k₃] := by
  have h1' : k₁ ≠ p := fun h => h1 h.symm
  have h2' : k₂ ≠ p := fun h => h2 h.symm
  have h3' : k₃ ≠ p := fun h => h3 h.symm
  have h13 : k₃ < k₁ := by omega
  apply distinctRanks_eq_of_perm hperm
  · simp [List.dedup_cons_of_mem, List.dedup_cons_of_not_mem, h1, h2, h3, h1', h2', h3',
      h12.ne, h12.ne', h23.ne, h23.ne', h13.ne, h13.ne']
  · simp [List.Sorted, rankOrder, List.count_cons, h1, h2, h3, h1', h2', h3',
      h12.ne, h12.ne', h23.ne, h23.ne', h13.ne, h13.ne', h12.le, h23.le, h13.le]

/-- Five distinct ranks: the list of the specification is the descending list. -/
theorem distinctRanks_distinct {ranks : List Int} {a b c d e : Int} (l1 : b < a) (l2 : c < b)
    (l3 : d < c) (l4 : e < d) (hperm : ranks.Perm [a, b, c, d, e]) :
    distinctRanksByCountDesc ranks = [a, b, c, d, e] := by
  have hac : c < a := by omega
  have had : d < a := by omega
  have hae : e < a := by omega
  have hbd : d < b := by omega
  have hbe : e < b := by omega
  have hce : e < c := by omega
  apply distinctRanks_eq_of_perm hperm
  · simp [List.dedup_cons_of_mem, List.dedup_cons_of_not_mem, l1.ne, l1.ne', l2.ne, l2.ne',
      l3.ne, l3.ne', l4.ne, l4.ne', hac.ne, hac.ne', had.ne, had.ne', hae.ne, hae.ne',
      hbd.ne, hbd.ne', hbe.ne, hbe.ne', hce.ne, hce.ne']
  · simp [List.Sorted, rankOrder, List.count_cons, l1.ne, l1.ne', l2.ne, l2.ne',
      l3.ne, l3.ne', l4.ne, l4.ne', hac.ne, hac.ne', had.ne, had.ne', hae.ne, hae.ne',
      hbd.ne, hbd.ne', hbe.ne, hbe.ne', hce.ne, hce.ne', l1.le, l2.le, l3.le, l4.le,
      hac.le, had.le, hae.le, hbd.le, hbe.le, hce.le]

/-- The key and the list of the specification on a five-card hand whose five numeric
ranks are not all equal: when `evaluate` classifies the hand as High Card, One Pair, Two
Pair, Three of a Kind, Full House or Four of a Kind, the key is the list of the distinct
ranks ordered primarily by descending number of occurrences and secondarily by
descending rank. -/
theorem evaluate_key_refines_of_not_all_equal (hand : List Card) (nums : List Int)
    (hlen : hand.length = 5)
    (hnum : numericValues hand = some nums) (hne : ¬ ∃ r : Int, nums = [r, r, r, r, r])
    (ev : Evaluation) (hev : evaluate hand = some ev)
    (hcat : ev.category = 1 ∨ ev.category = 2 ∨ ev.category = 3 ∨ ev.category = 4 ∨
      ev.category = 7 ∨ ev.category = 8) :
    ev.key = (distinctRanksByCountDesc nums).map some := by
  obtain ⟨a, b, c, d, e, h1, h2, h3, h4, hperm, _, hev'⟩ := evaluate_five hlen hnum
  rw [hev] at hev'
  rcases classify_five_patterns a b c d e h1 h2 h3 h4 _ ev (Option.some.inj hev').symm with
    ⟨hc, _⟩ | ⟨_, hk, _, l1, l2, l3, l4, _⟩ | ⟨_, _, _, e1, e2, e3, e4⟩ |
    ⟨_, r, k, hrk, hp, hk⟩ | ⟨_, t, p, htp, hp, hk⟩ |
    ⟨_, _, t, k₁, k₂, h12, ht1, ht2, hp, hk⟩ |
    ⟨_, _, p₁, p₂, k, h12, hk1, hk2, hp, hk⟩ |
    ⟨_, _, p, k₁, k₂, k₃, h12, h23, hp1, hp2, hp3, hp, hk⟩
  · exfalso
    omega
  · rw [hk, distinctRanks_distinct l1 l2 l3 l4 hperm]
    rfl
  · exfalso
    subst e1 e2 e3 e4
    exact hne ⟨_, eq_of_perm_five_equal hperm⟩
  · rw [hk, distinctRanks_four hrk (hperm.trans hp)]
    rfl
  · rw [hk, distinctRanks_full htp (hperm.trans hp)]
    rfl
  · rw [hk, distinctRanks_three h12 ht1 ht2 (hperm.trans hp)]
    rfl
  · rw [hk, distinctRanks_two_pair h12 hk1 hk2 (hperm.trans hp)]
    rfl
  · rw [hk, distinctRanks_pair h12 h23 hp1 hp2 hp3 (hperm.trans hp)]
    rfl

/-! ## Symmetries of the comparison and of the evaluation -/

/-- Exchanging two keys of the same length with defined entries exchanges the verdicts
`"win"` and `"lose"` of the loop and keeps the verdict `"tie"`. -/
theorem compareKeys_swap (name : String) (p d : List (Option Int))
    (hlen : p.length = d.length) (hp : ∀ k ∈ p, k ≠ none) (hd : ∀ k ∈ d, k ≠ none) :
    ((compareKeys name name p d).1 = "win" ↔ (compareKeys name name d p).1 = "lose") ∧
    ((compareKeys name name p d).1 = "lose" ↔ (compareKeys name name d p).1 = "win") ∧
    ((compareKeys name name p d).1 = "tie" ↔ (compareKeys name name d p).1 = "tie") := by
  induction p generalizing d with
  | nil =>
    cases d with
    | nil => simp [compareKeys]
    | cons d0 ds => simp at hlen
  | cons p0 ps ih =>
    cases d with
    | nil => simp at hlen
    | cons d0 ds =>
      have hlen' : ps.length = ds.length := by simpa using hlen
      have ih' := ih ds hlen' (fun k hk => hp k (List.mem_cons_of_mem _ hk))
        (fun k hk => hd k (List.mem_cons_of_mem _ hk))
      cases hp0 : p0 with
      | none => exact absurd hp0 (hp p0 (List.mem_cons_self _ _))
      | some x =>
        cases hd0 : d0 with
        | none => exact absurd hd0 (hd d0 (List.mem_cons_self _ _))
        | some y =>
          simp only [compareKeys, List.head?_cons, Option.join, Option.bind_some, id_eq, jsGt,
            jsLt, decide_eq_true_eq, List.tail_cons]
          by_cases hgt : y < x
          · have hlt : ¬ x < y := by omega
            simp [hgt, hlt]
          · by_cases hlt : x < y
            · simp [hgt, hlt]
            · simpa [hgt, hlt] using ih'

/-- C18: for two five-card hands `A` and `B` with valid ranks, `compareHands` is
antisymmetric: with `A` as player and `B` as dealer it returns `"win"` exactly when
with `B` as player and `A` as dealer it returns `"lose"`, and conversely; it returns
`"tie"` in one order exactly when it returns `"tie"` in the other; and the category
name reported is the same in both orders. -/
theorem compareHands_antisymm (handA handB : List Card)
    (hA : handA.length = 5) (hB : handB.length = 5)
    (vA : validRanks handA) (vB : validRanks handB) :
    ∃ verdictAB verdictBA name : String,
      compareHands handA handB = some (verdictAB, name) ∧
      compareHands handB handA = some (verdictBA, name) ∧
      (verdictAB = "win" ↔ verdictBA = "lose") ∧
      (verdictAB = "lose" ↔ verdictBA = "win") ∧
      (verdictAB = "tie" ↔ verdictBA = "tie") := by
  obtain ⟨_, a, b, c, d, e, _, h1, h2, h3, h4, hlo, hhi, _, heA⟩ := evaluate_five_valid hA vA
  obtain ⟨_, a', b', c', d', e', _, h1', h2', h3', h4', hlo', hhi', _, heB⟩ :=
    evaluate_five_valid hB vB
  obtain ⟨hkA, hsA⟩ := classify_five_wellformed a b c d e h1 h2 h3 h4 hlo hhi
    (handA.map Card.suit) _ rfl
  obtain ⟨hkB, hsB⟩ := classify_five_wellformed a' b' c' d' e' h1' h2' h3' h4' hlo' hhi'
    (handB.map Card.suit) _ rfl
  generalize classify [a, b, c, d, e] (handA.map Card.suit) = evA at heA hkA hsA
  generalize classify [a', b', c', d', e'] (handB.map Card.suit) = evB at heB hkB hsB
  rcases Nat.lt_trichotomy evA.category evB.category with hlt | heq | hgt
  · have hn : ¬ evB.category < evA.category := by omega
    refine ⟨"lose", "win", evB.name, ?_, ?_, by decide, by decide, by decide⟩
    · simp only [compareHands, heA, heB, gt_iff_lt, hn, hlt, if_true, if_false]
    · simp only [compareHands, heA, heB, gt_iff_lt, hlt, if_true]
  · obtain ⟨hname, hlen⟩ := same_category_same_shape evA evB hsA hsB heq
    have hAdef : ∀ k ∈ evA.key, k ≠ none := by
      intro k hk
      obtain ⟨n, hn, _⟩ := hkA k hk
      simp [hn]
    have hBdef : ∀ k ∈ evB.key, k ≠ none := by
      intro k hk
      obtain ⟨n, hn, _⟩ := hkB k hk
      simp [hn]
    refine ⟨(compareKeys evA.name evA.name evA.key evB.key).1,
      (compareKeys evA.name evA.name evB.key evA.key).1, evA.name, ?_, ?_,
      compareKeys_swap evA.name evA.key evB.key hlen hAdef hBdef⟩
    · simp only [compareHands, heA, heB, gt_iff_lt, heq, lt_self_iff_false, if_false,
        ← hname]
      exact congrArg some (Prod.ext rfl (compareKeys_name evA.name evA.key evB.key))
    · simp only [compareHands, heA, heB, gt_iff_lt, heq, lt_self_iff_false, if_false,
        ← hname]
      exact congrArg some (Prod.ext rfl (compareKeys_name evA.name evB.key evA.key))
  · have hn : ¬ evA.category < evB.category := by omega
    refine ⟨"win", "lose", evA.name, ?_, ?_, by decide, by decide, by decide⟩
    · simp only [compareHands, heA, heB, gt_iff_lt, hgt, if_true]
    · simp only [compareHands, heA, heB, gt_iff_lt, hn, hgt, if_true, if_false]

/-- Witness for C18: four twos against nines full of threes is `"win"` one way and
`"lose"` the other way, both times reported as "Four of a Kind". -/
theorem compareHands_antisymm_witness :
    compareHands [⟨"♠", "2"⟩, ⟨"♥", "2"⟩, ⟨"♦", "2"⟩, ⟨"♣", "2"⟩, ⟨"♠", "5"⟩]
      [⟨"♠", "9"⟩, ⟨"♥", "9"⟩, ⟨"♦", "9"⟩, ⟨"♠", "3"⟩, ⟨"♥", "3"⟩] =
        some ("win", "Four of a Kind") ∧
    compareHands [⟨"♠", "9"⟩, ⟨"♥", "9"⟩, ⟨"♦", "9"⟩, ⟨"♠", "3"⟩, ⟨"♥", "3"⟩]
      [⟨"♠", "2"⟩, ⟨"♥", "2"⟩, ⟨"♦", "2"⟩, ⟨"♣", "2"⟩, ⟨"♠", "5"⟩] =
        some ("lose", "Four of a Kind") := by
  obtain ⟨vAB, vBA, name, hAB, hBA, hwl, _, _⟩ := compareHands_antisymm
    [⟨"♠", "2"⟩, ⟨"♥", "2"⟩, ⟨"♦", "2"⟩, ⟨"♣", "2"⟩, ⟨"♠", "5"⟩]
    [⟨"♠", "9"⟩, ⟨"♥", "9"⟩, ⟨"♦", "9"⟩, ⟨"♠", "3"⟩, ⟨"♥", "3"⟩]
    rfl rfl (by decide) (by decide)
  have h : compareHands [⟨"♠", "2"⟩, ⟨"♥", "2"⟩, ⟨"♦", "2"⟩, ⟨"♣", "2"⟩, ⟨"♠", "5"⟩]
      [⟨"♠", "9"⟩, ⟨"♥", "9"⟩, ⟨"♦", "9"⟩, ⟨"♠", "3"⟩, ⟨"♥", "3"⟩] =
        some ("win", "Four of a Kind") := by decide
  rw [h] at hAB
  simp only [Option.some.injEq, Prod.mk.injEq] at hAB
  obtain ⟨hv, hn⟩ := hAB
  rw [hBA, ← hn, hwl.mp hv.symm]
  exact ⟨rfl, rfl⟩

/-- Rearranging the cards rearranges the numeric values. -/
theorem numericValues_perm {hand hand' : List Card} (hperm : hand.Perm hand') :
    ∀ nums : List Int, numericValues hand = some nums →
      ∃ nums' : List Int, numericValues hand' = some nums' ∧ nums.Perm nums' := by
  induction hperm with
  | nil =>
    intro nums h
    exact ⟨nums, h, List.Perm.refl _⟩
  | cons c _ ih =>
    intro nums h
    obtain ⟨n, ns, hn, hns, rfl⟩ := numericValues_cons_eq_some h
    obtain ⟨ns', hns', hp⟩ := ih ns hns
    exact ⟨n :: ns', by simp [numericValues, hn, hns'], hp.cons n⟩
  | swap c₁ c₂ l =>
    intro nums h
    obtain ⟨n₂, ns, hn₂, hns, rfl⟩ := numericValues_cons_eq_some h
    obtain ⟨n₁, ns', hn₁, hns', rfl⟩ := numericValues_cons_eq_some hns
    exact ⟨n₁ :: n₂ :: ns', by simp [numericValues, hn₁, hn₂, hns'], List.Perm.swap _ _ _⟩
  | trans _ _ ih₁ ih₂ =>
    intro nums h
    obtain ⟨nums₁, h₁, hp₁⟩ := ih₁ nums h
    obtain ⟨nums₂, h₂, hp₂⟩ := ih₂ nums₁ h₁
    exact ⟨nums₂, h₂, hp₁.trans hp₂⟩

/-- `classify` reads the suits only through the test of line 91. -/
theorem classify_congr_flush (values : List Int) {suits suits' : List String}
    (h : isFlush suits = isFlush suits') : classify values suits = classify values suits' := by
  simp only [classify, h]

/-- The test of line 91 gives the same answer on two hands that agree on whether all
their cards share one suit. -/
theorem isFlush_eq_of_iff {hand hand' : List Card}
    (h : (∃ s, ∀ c ∈ hand', c.suit = s) ↔ (∃ s, ∀ c ∈ hand, c.suit = s)) :
    isFlush (hand'.map Card.suit) = isFlush (hand.map Card.suit) := by
  rw [Bool.eq_iff_iff, isFlush_iff, isFlush_iff]
  exact h

/-- C19: `evaluate` returns the same triple for a hand and for every rearrangement of
its cards; more generally the triple depends only on the multiset of the numeric ranks
and on whether all the cards share one suit. -/
theorem evaluate_perm_invariant (hand : List Card) (nums : List Int)
    (hnum : numericValues hand = some nums) :
    (∀ hand' : List Card, hand.Perm hand' → evaluate hand' = evaluate hand) ∧
    (∀ (hand₂ : List Card) (nums₂ : List Int), numericValues hand₂ = some nums₂ →
      nums₂.Perm nums →
      ((∃ s, ∀ c ∈ hand₂, c.suit = s) ↔ (∃ s, ∀ c ∈ hand, c.suit = s)) →
      evaluate hand₂ = evaluate hand) := by
  have hgen : ∀ (hand₂ : List Card) (nums₂ : List Int), numericValues hand₂ = some nums₂ →
      nums₂.Perm nums →
      ((∃ s, ∀ c ∈ hand₂, c.suit = s) ↔ (∃ s, ∀ c ∈ hand, c.suit = s)) →
      evaluate hand₂ = evaluate hand := by
    intro hand₂ nums₂ hnum₂ hp hs
    rw [evaluate_eq hnum₂, evaluate_eq hnum, sortDesc_eq_of_perm hp,
      classify_congr_flush _ (isFlush_eq_of_iff hs)]
  refine ⟨?_, hgen⟩
  intro hand' hperm
  obtain ⟨nums', hnum', hp⟩ := numericValues_perm hperm nums hnum
  refine hgen hand' nums' hnum' hp.symm ?_
  constructor
  · rintro ⟨s, hs⟩
    exact ⟨s, fun c hc => hs c (hperm.mem_iff.mp hc)⟩
  · rintro ⟨s, hs⟩
    exact ⟨s, fun c hc => hs c (hperm.mem_iff.mpr hc)⟩

/-- Witness for C19: 4♠ 6♥ 2♦ 4♣ 6♠ and its rearrangement 6♥ 6♠ 4♠ 4♣ 2♦ have the same
evaluation. -/
theorem evaluate_perm_invariant_witness :
    evaluate [⟨"♥", "6"⟩, ⟨"♠", "6"⟩, ⟨"♠", "4"⟩, ⟨"♣", "4"⟩, ⟨"♦", "2"⟩] =
      evaluate [⟨"♠", "4"⟩, ⟨"♥", "6"⟩, ⟨"♦", "2"⟩, ⟨"♣", "4"⟩, ⟨"♠", "6"⟩] :=
  (evaluate_perm_invariant [⟨"♠", "4"⟩, ⟨"♥", "6"⟩, ⟨"♦", "2"⟩, ⟨"♣", "4"⟩, ⟨"♠", "6"⟩]
    [4, 6, 2, 4, 6] rfl).1
    [⟨"♥", "6"⟩, ⟨"♠", "6"⟩, ⟨"♠", "4"⟩, ⟨"♣", "4"⟩, ⟨"♦", "2"⟩] (by decide)

/-- On one descending list of five ranks, two evaluations of the same category have the
same key, whatever the suits. -/
theorem classify_key_eq_of_category_eq (a b c d e : Int) (h1 : b ≤ a) (h2 : c ≤ b)
    (h3 : d ≤ c) (h4 : e ≤ d) (suits suits' : List String)
    (hcat : (classify [a, b, c, d, e] suits).category =
      (classify [a, b, c, d, e] suits').category) :
    (classify [a, b, c, d, e] suits).key = (classify [a, b, c, d, e] suits').key := by
  by_cases hf : isFlush suits = isFlush suits'
  · rw [classify_congr_flush _ hf]
  · rcases classify_five_cases a b c d e h1 h2 h3 h4 suits with
      ⟨p1, p2, p3, p4, hc⟩ | ⟨p1, p2, p3, p4, hc⟩ | ⟨p1, p2, p3, p4, hc⟩ |
      ⟨p1, p2, p3, p4, hc⟩ | ⟨p1, p2, p3, p4, hc⟩ | ⟨p1, p2, p3, p4, hc⟩ |
      ⟨p1, p2, p3, p4, hc⟩ | ⟨p1, p2, p3, p4, hc⟩ | ⟨p1, p2, p3, p4, hc⟩ |
      ⟨p1, p2, p3, p4, hc⟩ | ⟨p1, p2, p3, p4, hc⟩ | ⟨p1, p2, p3, p4, hc⟩ |
      ⟨p1, p2, p3, p4, hc⟩ | ⟨p1, p2, p3, p4, hc⟩ | ⟨p1, p2, p3, p4, hc⟩ |
      ⟨p1, p2, p3, p4, hc⟩ <;>
    rcases classify_five_cases a b c d e h1 h2 h3 h4 suits' with
      ⟨q1, q2, q3, q4, hc'⟩ | ⟨q1, q2, q3, q4, hc'⟩ | ⟨q1, q2, q3, q4, hc'⟩ |
      ⟨q1, q2, q3, q4, hc'⟩ | ⟨q1, q2, q3, q4, hc'⟩ | ⟨q1, q2, q3, q4, hc'⟩ |
      ⟨q1, q2, q3, q4, hc'⟩ | ⟨q1, q2, q3, q4, hc'⟩ | ⟨q1, q2, q3, q4, hc'⟩ |
      ⟨q1, q2, q3, q4, hc'⟩ | ⟨q1, q2, q3, q4, hc'⟩ | ⟨q1, q2, q3, q4, hc'⟩ |
      ⟨q1, q2, q3, q4, hc'⟩ | ⟨q1, q2, q3, q4, hc'⟩ | ⟨q1, q2, q3, q4, hc'⟩ |
      ⟨q1, q2, q3, q4, hc'⟩ <;>
    first
      | (exfalso; omega)
      | (rw [hc, hc'] at hcat ⊢
         all_goals
           first
             | rfl
             | (split_ifs at hcat ⊢ <;> first | rfl | (exfalso; simp at hcat)))

/-- Two five-card hands of the same category with the same key have the same multiset
of numeric ranks: within a category the key loses no rank. -/
theorem perm_of_key_eq (a b c d e a' b' c' d' e' : Int) (h1 : b ≤ a) (h2 : c ≤ b)
    (h3 : d ≤ c) (h4 : e ≤ d) (h1' : b' ≤ a') (h2' : c' ≤ b') (h3' : d' ≤ c') (h4' : e' ≤ d')
    (suits suits' : List String)
    (hcat : (classify [a, b, c, d, e] suits).category =
      (classify [a', b', c', d', e'] suits').category)
    (hkey : (classify [a, b, c, d, e] suits).key = (classify [a', b', c', d', e'] suits').key) :
    [a, b, c, d, e].Perm [a', b', c', d', e'] := by
  rcases classify_five_patterns a b c d e h1 h2 h3 h4 suits _ rfl with
    ⟨hc, hk⟩ | ⟨hc, hk, _⟩ | ⟨hc, hk, _⟩ | ⟨hc, r, k, _, hp, hk⟩ | ⟨hc, t, p, _, hp, hk⟩ |
    ⟨hc, _, t, k₁, k₂, _, _, _, hp, hk⟩ | ⟨hc, _, p₁, p₂, k, _, _, _, hp, hk⟩ |
    ⟨hc, _, p, k₁, k₂, k₃, _, _, _, _, _, hp, hk⟩ <;>
  rcases classify_five_patterns a' b' c' d' e' h1' h2' h3' h4' suits' _ rfl with
    ⟨hc', hk'⟩ | ⟨hc', hk', _⟩ | ⟨hc', hk', _⟩ | ⟨hc', r', k', _, hp', hk'⟩ |
    ⟨hc', t', p', _, hp', hk'⟩ | ⟨hc', _, t', k₁', k₂', _, _, _, hp', hk'⟩ |
    ⟨hc', _, p₁', p₂', k', _, _, _, hp', hk'⟩ |
    ⟨hc', _, p', k₁', k₂', k₃', _, _, _, _, _, hp', hk'⟩ <;>
  first
    | (exfalso; omega)
    | (rw [hk, hk'] at hkey
       simp only [List.cons.injEq, Option.some.injEq, and_true] at hkey
       first
         | (obtain ⟨rfl, rfl, rfl, rfl, rfl⟩ := hkey
            exact List.Perm.refl _)
         | (obtain ⟨rfl, rfl, rfl, rfl⟩ := hkey
            exact hp.trans hp'.symm))

/-- C20: for two five-card hands with valid ranks, `compareHands` returns `"tie"` exactly
when `evaluate` gives both hands the same category and the two hands have the same
multiset of numeric ranks; in particular two hands of the same category with different
multisets of ranks never tie. -/
theorem compareHands_tie_iff (player dealer : List Card) (pNums dNums : List Int)
    (hp : player.length = 5) (hd : dealer.length = 5)
    (vp : validRanks player) (vd : validRanks dealer)
    (hpn : numericValues player = some pNums) (hdn : numericValues dealer = some dNums)
    (pEval dEval : Evaluation) (hpe : evaluate player = some pEval)
    (hde : evaluate dealer = some dEval) :
    ((∃ name, compareHands player dealer = some ("tie", name)) ↔
      (pEval.category = dEval.category ∧ pNums.Perm dNums)) ∧
    (pEval.category = dEval.category → ¬ pNums.Perm dNums →
      ∀ name, compareHands player dealer ≠ some ("tie", name)) := by
  obtain ⟨a, b, c, d, e, h1, h2, h3, h4, hpermP, hsdP, hevP⟩ := evaluate_five hp hpn
  obtain ⟨a', b', c', d', e', h1', h2', h3', h4', hpermD, hsdD, hevD⟩ := evaluate_five hd hdn
  obtain ⟨_, hbP⟩ := numericValues_of_valid player vp
  obtain ⟨_, hbD⟩ := numericValues_of_valid dealer vd
  have hlo := (hbP.2 e (by rw [hbP.1] at hpn; cases hpn; exact hpermP.mem_iff.mpr (by simp))).1
  have hhi := (hbP.2 a (by rw [hbP.1] at hpn; cases hpn; exact hpermP.mem_iff.mpr (by simp))).2
  have hlo' := (hbD.2 e' (by rw [hbD.1] at hdn; cases hdn; exact hpermD.mem_iff.mpr (by simp))).1
  have hhi' := (hbD.2 a' (by rw [hbD.1] at hdn; cases hdn; exact hpermD.mem_iff.mpr (by simp))).2
  rw [hpe] at hevP
  rw [hde] at hevD
  have hP := Option.some.inj hevP
  have hD := Option.some.inj hevD
  obtain ⟨hkP, hsP⟩ := classify_five_wellformed a b c d e h1 h2 h3 h4 hlo hhi _ pEval hP.symm
  obtain ⟨hkD, hsD⟩ :=
    classify_five_wellformed a' b' c' d' e' h1' h2' h3' h4' hlo' hhi' _ dEval hD.symm
  have main : (∃ name, compareHands player dealer = some ("tie", name)) ↔
      (pEval.category = dEval.category ∧ pNums.Perm dNums) := by
    constructor
    · rintro ⟨name, htie⟩
      have hcat : pEval.category = dEval.category := by
        by_contra hne
        rcases Nat.lt_or_gt_of_ne hne with hlt | hgt
        · have hn : ¬ dEval.category < pEval.category := by omega
          simp only [compareHands, hpe, hde, gt_iff_lt, hn, hlt, if_true, if_false,
            Option.some.injEq, Prod.mk.injEq] at htie
          exact absurd htie.1 (by decide)
        · simp only [compareHands, hpe, hde, gt_iff_lt, hgt, if_true,
            Option.some.injEq, Prod.mk.injEq] at htie
          exact absurd htie.1 (by decide)
      refine ⟨hcat, ?_⟩
      obtain ⟨_, hlen⟩ := same_category_same_shape pEval dEval hsP hsD hcat
      have hkey : pEval.key = dEval.key := by
        apply (compareKeys_tie_iff pEval.name dEval.name pEval.key dEval.key hlen
          (fun k hk => by obtain ⟨n, hn, _⟩ := hkP k hk; simp [hn])
          (fun k hk => by obtain ⟨n, hn, _⟩ := hkD k hk; simp [hn])).mp
        simp only [compareHands, hpe, hde, gt_iff_lt, hcat, lt_self_iff_false, if_false,
          Option.some.injEq] at htie
        rw [htie]
      rw [hP, hD] at hcat hkey
      exact hpermP.trans ((perm_of_key_eq a b c d e a' b' c' d' e' h1 h2 h3 h4 h1' h2' h3' h4'
        _ _ hcat hkey).trans hpermD.symm)
    · rintro ⟨hcat, hperm⟩
      have hsd : [a, b, c, d, e] = [a', b', c', d', e'] := by
        rw [← hsdP, ← hsdD, sortDesc_eq_of_perm hperm]
      simp only [List.cons.injEq, and_true] at hsd
      obtain ⟨rfl, rfl, rfl, rfl, rfl⟩ := hsd
      have hkey : pEval.key = dEval.key := by
        rw [hP, hD] at hcat ⊢
        exact classify_key_eq_of_category_eq a b c d e h1 h2 h3 h4 _ _ hcat
      refine ⟨pEval.name, ?_⟩
      simp only [compareHands, hpe, hde, gt_iff_lt, hcat, lt_self_iff_false, if_false,
        hkey, compareKeys_self]
  exact ⟨main, fun hcat hnp name htie => hnp (main.mp ⟨name, htie⟩).2⟩

/-- Witness for C20: 6♠ 6♥ 7♦ 4♣ 2♠ and 6♦ 6♣ 2♥ 7♠ 4♥ are both One Pair with the ranks
`6, 6, 7, 4, 2`, and tie. -/
theorem compareHands_tie_iff_witness :
    ∃ name, compareHands [⟨"♠", "6"⟩, ⟨"♥", "6"⟩, ⟨"♦", "7"⟩, ⟨"♣", "4"⟩, ⟨"♠", "2"⟩]
      [⟨"♦", "6"⟩, ⟨"♣", "6"⟩, ⟨"♥", "2"⟩, ⟨"♠", "7"⟩, ⟨"♥", "4"⟩] = some ("tie", name) :=
  (compareHands_tie_iff [⟨"♠", "6"⟩, ⟨"♥", "6"⟩, ⟨"♦", "7"⟩, ⟨"♣", "4"⟩, ⟨"♠", "2"⟩]
    [⟨"♦", "6"⟩, ⟨"♣", "6"⟩, ⟨"♥", "2"⟩, ⟨"♠", "7"⟩, ⟨"♥", "4"⟩]
    [6, 6, 7, 4, 2] [6, 6, 2, 7, 4] rfl rfl (by decide) (by decide) rfl rfl
    ⟨2, [some 6, some 7, some 4, some 2], "One Pair"⟩
    ⟨2, [some 6, some 7, some 4, some 2], "One Pair"⟩ (by decide) (by decide)).1.mpr
    ⟨rfl, by decide⟩

/-! ## Hands dealt from the deck

`Deck.create` holds every card once and `deal` removes the card it returns, so a dealt
hand consists of pairwise distinct cards of the deck.  On such hands the five ranks are
never all equal, because the deck has only four suits. -/

/-- The cards of the deck are the cards with a suit of `Deck.suits` and a value of
`Deck.values`. -/
theorem Deck.mem_create_iff (c : Card) :
    c ∈ Deck.create ↔ c.suit ∈ Deck.suits ∧ c.value ∈ Deck.values := by
  simp only [Deck.create, List.mem_flatMap, List.mem_map]
  constructor
  · rintro ⟨s, hs, v, hv, rfl⟩
    exact ⟨hs, hv⟩
  · rintro ⟨hs, hv⟩
    exact ⟨c.suit, hs, c.value, hv, rfl⟩

/-- Cards of the deck have valid ranks. -/
theorem validRanks_of_deck {hand : List Card} (hdeck : ∀ c ∈ hand, c ∈ Deck.create) :
    validRanks hand :=
  fun c hc => ((Deck.mem_create_iff c).mp (hdeck c hc)).2

/-- Every card of a hand contributes its numeric value to the list of numeric values. -/
theorem numericValues_mem {hand : List Card} {nums : List Int}
    (h : numericValues hand = some nums) :
    ∀ c ∈ hand, ∃ n ∈ nums, c.getNumericValue = some n := by
  induction hand generalizing nums with
  | nil => simp
  | cons c cs ih =>
    obtain ⟨n, ns, hn, hns, rfl⟩ := numericValues_cons_eq_some h
    intro x hx
    rcases List.mem_cons.mp hx with rfl | hx
    · exact ⟨n, List.mem_cons_self _ _, hn⟩
    · obtain ⟨m, hm, hxm⟩ := ih hns x hx
      exact ⟨m, List.mem_cons_of_mem _ hm, hxm⟩

/-- Five pairwise distinct cards of the deck never have five equal ranks: they would
need five different suits. -/
theorem deck_hand_not_all_equal {hand : List Card} {nums : List Int}
    (hlen : hand.length = 5) (hdeck : ∀ c ∈ hand, c ∈ Deck.create) (hnd : hand.Nodup)
    (hnum : numericValues hand = some nums) : ¬ ∃ r : Int, nums = [r, r, r, r, r] := by
  rintro ⟨r, rfl⟩
  have hval : ∀ c ∈ hand, c.getNumericValue = some r := by
    intro c hc
    obtain ⟨n, hn, hcn⟩ := numericValues_mem hnum c hc
    simp only [List.mem_cons, List.mem_singleton, List.not_mem_nil, or_false, or_self] at hn
    rw [hcn, hn]
  have hinj : ∀ x ∈ hand, ∀ y ∈ hand, x.suit = y.suit → x = y := by
    intro x hx y hy hs
    have hv : x.value = y.value :=
      getNumericValue_inj_of_valid x y ((Deck.mem_create_iff x).mp (hdeck x hx)).2
        ((Deck.mem_create_iff y).mp (hdeck y hy)).2 ((hval x hx).trans (hval y hy).symm)
    cases x
    cases y
    simp only [Card.mk.injEq]
    exact ⟨hs, hv⟩
  have hsub : hand.map Card.suit ⊆ Deck.suits := by
    intro s hs
    obtain ⟨c, hc, rfl⟩ := List.mem_map.mp hs
    exact ((Deck.mem_create_iff c).mp (hdeck c hc)).1
  have hle := ((List.Nodup.map_on hinj hnd).subperm hsub).length_le
  rw [List.length_map, hlen] at hle
  exact absurd hle (by decide)

/-- C14: for every hand of five pairwise distinct cards of the deck (the five-card hands
with valid ranks that can be dealt), `evaluate` returns category 1 "High Card" if and
only if the five numeric ranks are pairwise distinct, the cards do not all share one
suit, and the ranks are not five consecutive integers; in that case the result is named
"High Card" and its key is the five ranks in strictly descending order. -/
theorem evaluate_high_card (hand : List Card) (nums : List Int) (hlen : hand.length = 5)
    (hdeck : ∀ c ∈ hand, c ∈ Deck.create) (hnd : hand.Nodup)
    (hnum : numericValues hand = some nums) :
    ((∃ ev : Evaluation, evaluate hand = some ev ∧ ev.category = 1) ↔
      (nums.Nodup ∧ (¬ ∃ s, ∀ c ∈ hand, c.suit = s) ∧
        ¬ ∃ x : Int, nums.Perm [x, x + 1, x + 2, x + 3, x + 4])) ∧
    (∀ ev : Evaluation, evaluate hand = some ev → ev.category = 1 →
      ev.name = "High Card" ∧
      ∃ a b c d e : Int, b < a ∧ c < b ∧ d < c ∧ e < d ∧ nums.Perm [a, b, c, d, e] ∧
        ev.key = [some a, some b, some c, some d, some e]) :=
  evaluate_high_card_of_not_all_equal hand nums hlen hnum
    (deck_hand_not_all_equal hlen hdeck hnd hnum)

/-- Witness for C14: 2♠ 5♥ 9♦ J♣ K♠ has distinct ranks, mixed suits and no run, and is
evaluated to `[1, [13, 11, 9, 5, 2], "High Card"]`. -/
theorem evaluate_high_card_witness :
    evaluate [⟨"♠", "2"⟩, ⟨"♥", "5"⟩, ⟨"♦", "9"⟩, ⟨"♣", "J"⟩, ⟨"♠", "K"⟩] =
      some ⟨1, [some 13, some 11, some 9, some 5, some 2], "High Card"⟩ ∧
    ∃ ev : Evaluation,
      evaluate [⟨"♠", "2"⟩, ⟨"♥", "5"⟩, ⟨"♦", "9"⟩, ⟨"♣", "J"⟩, ⟨"♠", "K"⟩] = some ev ∧
      ev.category = 1 :=
  ⟨by decide,
    (evaluate_high_card [⟨"♠", "2"⟩, ⟨"♥", "5"⟩, ⟨"♦", "9"⟩, ⟨"♣", "J"⟩, ⟨"♠", "K"⟩]
      [2, 5, 9, 11, 13] rfl (by decide) (by decide) rfl).1.mpr
      ⟨by decide,
        by
          rintro ⟨s, hs⟩
          have h1 := hs ⟨"♠", "2"⟩ (by simp)
          have h2 := hs ⟨"♥", "5"⟩ (by simp)
          exact absurd (h1.trans h2.symm) (by decide),
        by
          rintro ⟨x, hx⟩
          have h2 : (2 : Int) ∈ [x, x + 1, x + 2, x + 3, x + 4] := hx.mem_iff.mp (by simp)
          have h13 : (13 : Int) ∈ [x, x + 1, x + 2, x + 3, x + 4] := hx.mem_iff.mp (by simp)
          simp only [List.mem_cons, List.mem_singleton, List.not_mem_nil, or_false] at h2 h13
          omega⟩⟩

/-- C17: for every hand of five pairwise distinct cards of the deck (the five-card hands
with valid ranks that can be dealt) that `evaluate` classifies as High Card, One Pair,
Two Pair, Three of a Kind, Full House or Four of a Kind, the key returned by `evaluate`
equals the list of the distinct numeric ranks ordered primarily by descending number of
occurrences and secondarily by descending rank, the `distinctRanksByCountDesc` of the
specification, although the code builds the key with `find` and `filter`. -/
theorem evaluate_key_refines (hand : List Card) (nums : List Int) (hlen : hand.length = 5)
    (hdeck : ∀ c ∈ hand, c ∈ Deck.create) (hnd : hand.Nodup)
    (hnum : numericValues hand = some nums)
    (ev : Evaluation) (hev : evaluate hand = some ev)
    (hcat : ev.category = 1 ∨ ev.category = 2 ∨ ev.category = 3 ∨ ev.category = 4 ∨
      ev.category = 7 ∨ ev.category = 8) :
    ev.key = (distinctRanksByCountDesc nums).map some :=
  evaluate_key_refines_of_not_all_equal hand nums hlen hnum
    (deck_hand_not_all_equal hlen hdeck hnd hnum) ev hev hcat

/-- Witness for C17: for 6♠ 6♥ 7♦ 4♣ 2♠ the key `[6, 7, 4, 2]` of One Pair is the list
of the specification for the ranks `6, 6, 7, 4, 2`. -/
theorem evaluate_key_refines_witness :
    evaluate [⟨"♠", "6"⟩, ⟨"♥", "6"⟩, ⟨"♦", "7"⟩, ⟨"♣", "4"⟩, ⟨"♠", "2"⟩] =
      some ⟨2, [some 6, some 7, some 4, some 2], "One Pair"⟩ ∧
    ([some 6, some 7, some 4, some 2] : List (Option Int)) =
      (distinctRanksByCountDesc [6, 6, 7, 4, 2]).map some :=
  ⟨by decide,
    evaluate_key_refines [⟨"♠", "6"⟩, ⟨"♥", "6"⟩, ⟨"♦", "7"⟩, ⟨"♣", "4"⟩, ⟨"♠", "2"⟩]
      [6, 6, 7, 4, 2] rfl (by decide) (by decide) rfl
      ⟨2, [some 6, some 7, some 4, some 2], "One Pair"⟩ (by decide)
      (Or.inr (Or.inl rfl))⟩
end Pawker
